/-
A verification development for the friar Lama-bytecode toolchain.

The C++ sources are shallowly embedded: machine integers become `Nat`/`Int`
with explicit `% 2^w` wherever overflow matters, fallible operations return
`Except`, and the `std::vector`-backed stacks become Lean lists with explicit
indices.  Each definition carries a comment pointing at the C++ entity it
translates.
-/
import Mathlib

namespace Friar

/-! ## Tagged values (`interpreter.cpp`, class `Value`)

`auint`/`aint` are the machine word types of the Lama runtime; the width `w`
is kept as a parameter (64 on the actual target).  A machine word is modelled
as a `Nat` below `2 ^ w`; the signed view is two's complement. -/

/-- Two's complement reading of a `w`-bit word (the `static_cast<aint>` view). -/
def toSigned (w : Nat) (r : Nat) : Int :=
  if r < 2 ^ (w - 1) then (r : Int) else (r : Int) - 2 ^ w

/-- The `w`-bit two's complement representation of an integer
(`static_cast<auint>(v)` applied to a signed value `v`). -/
def toWord (w : Nat) (v : Int) : Nat :=
  (v % (2 ^ w : Int)).toNat

namespace Value

/-- `constexpr auint unboxed_contents = static_cast<auint>(-1) >> 1;` -/
def unboxed_contents (w : Nat) : Nat := (2 ^ w - 1) >>> 1

/-- `Value::from_int(aint v)` (interpreter.cpp): clear the two high bits of
the magnitude, shift left by one, restore the sign bit in the MSB, set the
low tag bit.  Returns the `w`-bit word representation. -/
def from_int (w : Nat) (v : Int) : Nat :=
  -- auto masked = static_cast<auint>(v) & (unboxed_contents >> 1);
  let masked := toWord w v &&& (unboxed_contents w >>> 1)
  -- auto shifted = masked << 1;
  let shifted := masked <<< 1
  -- if (v < 0) { shifted |= static_cast<auint>(1) << (sizeof(auint) * 8 - 1); }
  let shifted2 := if v < 0 then shifted ||| (1 <<< (w - 1)) else shifted
  -- return Value(shifted | 1);
  shifted2 ||| 1

/-- `Value::get_aint()`: `static_cast<aint>(repr_) >> 1`, an arithmetic right
shift, i.e. flooring division by two of the signed reading. -/
def get_aint (w : Nat) (r : Nat) : Int :=
  Int.fdiv (toSigned w r) 2

end Value

/-! ## Interpreter runtime model (`interpreter.cpp`, `Interpreter::run`)

`config.hpp` is not among the sources; the spec's runtime-error taxonomy
(§7 lists "stack overflow (absolute max)" and "illegal opcode (only possible
if the verifier is bypassed)", which exist only under `DYNAMIC_VERIFICATION`)
identifies the dynamically-checked build, so that variant is modelled.

Values are modelled at the tagged-value level: a small integer is carried as
its `get_aint` reading (the two views are in bijection on odd words), and a
heap pointer carries the object's type tag and payload inline.  `Eq` on two
boxed operands errors out before dereferencing either pointer, so object
identity is not needed by any theorem below.  Only the instructions exercised
by the claims are given semantics; all others map to `RtErr.unmodeled`. -/

/-- The four heap object types of the Lama runtime (`lama_type`). -/
inductive LamaType
  | array
  | string
  | sexp
  | closure
deriving DecidableEq

/-- A runtime tagged value: a small integer (low bit set, carried as its
`get_aint` value) or a heap pointer with the object payload carried inline.
String payloads are modelled as their byte values stored as `int` fields. -/
inductive RtValue
  | int (v : Int)
  | obj (t : LamaType) (fields : List RtValue)

/-- Runtime errors, one constructor per `make_error` site reached by the
modelled instructions (the C++ carries a formatted message and a backtrace;
here only the identity of the error site is kept). -/
inductive RtErr
  | cannotCompare      -- "cannot compare {} and {}"
  | cannotDivide       -- "cannot divide {} and {}"
  | cannotRemainder    -- "cannot take the remainder of {} and {}"
  | divisionByZero     -- "division by zero"
  | divisionByZeroRem  -- "division by zero while taking the remainder"
  | cannotIndex        -- "cannot index {}"
  | indexNotInt        -- "index must be an integer, got {}"
  | indexOutOfRange    -- "index {} out of range for an aggregate of length {}"
  | cannotWrite        -- "cannot write {} (expected integer)"
  | stackOverflow      -- "stack overflow"
  | stackUnderflowTop  -- top_nth: "trying to access stack value #{} ..."
  | stackUnderflowPop  -- pop_n: "trying to pop {} stack values ..."
  | pcOutOfBounds      -- "the PC ({:#x}) is outside the bytecode section ..."
  | entryNotBegin      -- "expected BEGIN or CBEGIN at {:#x} ..."
  | jmpOutOfBounds     -- check_jmp: "address {:#x} points outside ..."
  | jmpToBegin         -- check_jmp: "address {:#x} must not point to BEGIN/CBEGIN"
  | immEof             -- read_u32_at: "trying to read a 32-bit immediate ..."
  | immTooLarge        -- read_u32_at: "the 32-bit immediate {:#x} ... is too large"
  | tooManyParams      -- "too many parameters ..."
  | mainParams (got : Nat) -- "the main procedure must have 2 parameters, got {}"
  | mainCbegin         -- "the main procedure must be declared with BEGIN"
  | frameUnderflow     -- modelling guard: frames.back() on an empty frame stack (UB in C++)
  | unmodeled (b : Nat) -- instruction outside the modelled subset
deriving DecidableEq

/-- A call frame (`Interpreter::Frame`, `DYNAMIC_VERIFICATION` layout). -/
structure Frame where
  procAddr : Nat
  savedPc : Nat
  savedBase : Nat
  savedArgs : Nat
  savedLocals : Nat
  line : Nat
  isClosure : Bool

/-- The `-1U` sentinel used for the bottom frame's saved pc. -/
def uint32Max : Nat := 4294967295

/-- `constexpr uint32_t max_stack_size = 0x7fff'ffffU;` (interpreter.cpp) -/
def maxStackSize : Nat := 0x7fffffff

/-- `verifier::max_param_count` (verifier.hpp) -/
def maxParamCount : Nat := 0xffff

/-- The interpreter state: the stack vector `stk` (index 0 is
`stack.data()` = `__gc_stack_top`), the live length `live`
(`__gc_stack_bottom - __gc_stack_top`), and the per-frame registers. -/
structure VMState where
  bc : List Nat
  stk : List RtValue
  live : Nat
  pc : Nat
  base : Nat
  args : Nat
  locals : Nat
  frames : List Frame
  isMain : Bool
  out : String

/-- `top_nth(n)`: dynamic bounds check, then the slot `n` below the top. -/
def topNth (st : VMState) (n : Nat) : Except RtErr RtValue :=
  if n > 0 ∧ n ≥ st.live then .error .stackUnderflowTop
  else .ok (st.stk.getD (st.live - 1 - n) (.int 0))

/-- `pop_n(n)`: dynamic bounds check, then move `__gc_stack_bottom` down. -/
def popN (st : VMState) (n : Nat) : Except RtErr VMState :=
  if n > st.live then .error .stackUnderflowPop
  else .ok { st with live := st.live - n }

/-- `push(v)` under `DYNAMIC_VERIFICATION`: absolute-max check, then either
grow the vector by `push_back` or write into the pre-allocated slot. -/
def push (st : VMState) (v : RtValue) : Except RtErr VMState :=
  let newSize := st.live + 1
  if newSize > maxStackSize then .error .stackOverflow
  else if newSize > st.stk.length then
    .ok { st with stk := st.stk ++ [v], live := newSize }
  else
    .ok { st with stk := st.stk.set st.live v, live := newSize }

/-- The word width of the actual target (`sizeof(auint) * 8`). -/
def aintBits : Nat := 64

/-- The `get_aint` value obtained after storing an integer with
`Value::from_int`; the identity on the representable range. -/
def wrapAint (x : Int) : Int := Value.get_aint aintBits (Value.from_int aintBits x)

/-- `Value::from_bool`: `BOX(1)` or `BOX(0)`. -/
def fromBool (b : Bool) : RtValue := .int (if b then 1 else 0)

/-- `read_u32_at(addr, allow_neg)` under `DYNAMIC_VERIFICATION`. -/
def readU32At (st : VMState) (addr : Nat) (allowNeg : Bool) : Except RtErr Nat :=
  if addr + 4 > st.bc.length then .error .immEof
  else
    let v := st.bc.getD addr 0 + st.bc.getD (addr + 1) 0 * 256 +
      st.bc.getD (addr + 2) 0 * 65536 + st.bc.getD (addr + 3) 0 * 16777216
    if ¬allowNeg ∧ v >>> 31 ≠ 0 then .error .immTooLarge
    else .ok v

/-- `read_u32(allow_neg)`: read at `pc` and advance `pc`. -/
def readU32 (st : VMState) (allowNeg : Bool) : Except RtErr (Nat × VMState) :=
  (readU32At st st.pc allowNeg).map (fun v => (v, { st with pc := st.pc + 4 }))

/-- `check_jmp(l)` under `DYNAMIC_VERIFICATION`. -/
def checkJmp (st : VMState) (l : Nat) : Except RtErr Unit :=
  if l ≥ st.bc.length then .error .jmpOutOfBounds
  else if st.bc.getD l 0 = 0x52 ∨ st.bc.getD l 0 = 0x53 then .error .jmpToBegin
  else .ok ()

/-- `case Instr::Eq` (interpreter.cpp): int-int compares the signed values;
exactly one int pushes `false`; two boxed operands are a runtime error. -/
def eqStep (st : VMState) : Except RtErr VMState :=
  match topNth st 1, topNth st 0 with
  | .error e, _ => .error e
  | _, .error e => .error e
  | .ok (.int lhs), .ok (.int rhs) =>
    match popN st 2 with
    | .error e => .error e
    | .ok st2 => push st2 (fromBool (lhs == rhs))
  | .ok (.int _), .ok (.obj _ _) =>
    match popN st 2 with
    | .error e => .error e
    | .ok st2 => push st2 (fromBool false)
  | .ok (.obj _ _), .ok (.int _) =>
    match popN st 2 with
    | .error e => .error e
    | .ok st2 => push st2 (fromBool false)
  | .ok (.obj _ _), .ok (.obj _ _) => .error .cannotCompare

/-- `case Instr::Div`. -/
def divStep (st : VMState) : Except RtErr VMState :=
  match topNth st 1, topNth st 0 with
  | .error e, _ => .error e
  | _, .error e => .error e
  | .ok (.int lhs), .ok (.int rhs) =>
    match popN st 2 with
    | .error e => .error e
    | .ok st2 =>
      if rhs = 0 then .error .divisionByZero
      else push st2 (.int (wrapAint (Int.tdiv lhs rhs)))
  | .ok _, .ok _ => .error .cannotDivide

/-- `case Instr::Mod`. -/
def modStep (st : VMState) : Except RtErr VMState :=
  match topNth st 1, topNth st 0 with
  | .error e, _ => .error e
  | _, .error e => .error e
  | .ok (.int lhs), .ok (.int rhs) =>
    match popN st 2 with
    | .error e => .error e
    | .ok st2 =>
      if rhs = 0 then .error .divisionByZeroRem
      else push st2 (.int (wrapAint (Int.tmod lhs rhs)))
  | .ok _, .ok _ => .error .cannotRemainder

/-- `case Instr::Elem`: type check, index check, bounds check, pop, push the
element (for strings, the `char` read is sign-extended before boxing). -/
def elemStep (st : VMState) : Except RtErr VMState :=
  match topNth st 1, topNth st 0 with
  | .error e, _ => .error e
  | _, .error e => .error e
  | .ok (.int _), .ok _ => .error .cannotIndex
  | .ok (.obj .closure _), .ok _ => .error .cannotIndex
  | .ok (.obj t fields), .ok idxv =>
    match idxv with
    | .obj _ _ => .error .indexNotInt
    | .int idx =>
      if idx < 0 ∨ idx ≥ (fields.length : Int) then .error .indexOutOfRange
      else
        match popN st 2 with
        | .error e => .error e
        | .ok st2 =>
          match t with
          | .string =>
            match fields.getD idx.toNat (.int 0) with
            | .int b => push st2 (.int (if b < 128 then b else b - 256))
            | v => push st2 v
          | _ => push st2 (fields.getD idx.toNat (.int 0))

/-- `case Instr::Swap`.  The C++ block ends without a `break` statement and
therefore falls through into `case Instr::Elem`; the fallthrough is part of
the translated behaviour. -/
def swapStep (st : VMState) : Except RtErr VMState :=
  match topNth st 1, topNth st 0 with
  | .error e, _ => .error e
  | _, .error e => .error e
  | .ok lhs, .ok rhs =>
    match popN st 2 with
    | .error e => .error e
    | .ok st1 =>
      match push st1 rhs with
      | .error e => .error e
      | .ok st2 =>
        match push st2 lhs with
        | .error e => .error e
        | .ok st3 => elemStep st3

/-- `case Instr::CallLwrite`: type check, pop, print the signed value and a
newline, push the default `Value()` (= `BOX(0)`). -/
def lwriteStep (st : VMState) : Except RtErr VMState :=
  match topNth st 0 with
  | .error e => .error e
  | .ok (.obj _ _) => .error .cannotWrite
  | .ok (.int a) =>
    match popN st 1 with
    | .error e => .error e
    | .ok st2 => push { st2 with out := st2.out ++ toString a ++ "\n" } (.int 0)

/-- `case Instr::Const`: read the (signed-allowed) immediate, push it boxed.
`static_cast<aint>(k)` is the unsigned 32-bit value, not sign-extended. -/
def constStep (st : VMState) : Except RtErr VMState :=
  match readU32 st true with
  | .error e => .error e
  | .ok (k, st2) => push st2 (.int (wrapAint (k : Int)))

/-- `case Instr::Begin` / `case Instr::Cbegin` under `DYNAMIC_VERIFICATION`:
frame set-up.  Note that the `is_main` CBEGIN test reads `bc[pc - 1]`, which
at that point is the last byte of the locals immediate. -/
def beginStep (st : VMState) : Except RtErr VMState :=
  match readU32 st false with
  | .error e => .error e
  | .ok (params0, st1) =>
    match readU32 st1 false with
    | .error e => .error e
    | .ok (locals, st2) =>
      if params0 > maxParamCount then .error .tooManyParams
      else if st2.isMain ∧ params0 ≠ 2 then .error (.mainParams params0)
      else if st2.isMain ∧ st2.bc.getD (st2.pc - 1) 0 = 0x53 then .error .mainCbegin
      else
        let procStackSize := params0 >>> 16
        let params := params0 &&& 0xffff
        let base := st2.live
        let newSize := base + locals + procStackSize
        if newSize > maxStackSize then .error .stackOverflow
        else
          let stk :=
            if st2.stk.length < newSize then
              st2.stk ++ List.replicate (newSize - st2.stk.length) (.int 0)
            else st2.stk
          .ok { st2 with stk := stk, base := base, args := params,
                         locals := locals, live := base + locals }

/-- The outcome of one dispatch step: continue, or `return {}` (the `End` of
the bottom frame terminates execution successfully). -/
inductive StepOut
  | next (st : VMState)
  | done (st : VMState)

/-- `case Instr::End` / `case Instr::Ret`: deallocate the frame, and either
finish (bottom frame) or push the return value and restore the registers. -/
def endStep (st : VMState) : Except RtErr StepOut :=
  match topNth st 0 with
  | .error e => .error e
  | .ok v =>
    match st.frames with
    | [] => .error .frameUnderflow
    | frame :: rest =>
      let st1 := { st with
        live := st.base - st.args - (if frame.isClosure then 1 else 0) }
      if frame.savedPc = uint32Max then .ok (.done st1)
      else
        match push st1 v with
        | .error e => .error e
        | .ok st2 =>
          .ok (.next { st2 with pc := frame.savedPc, base := frame.savedBase,
                                args := frame.savedArgs,
                                locals := frame.savedLocals, frames := rest })

/-- One iteration of the interpreter loop: pc bounds check, opcode dispatch
(`bc[pc++]`), then the trailing `check_jmp(pc)` for instructions that fall
out of the `switch` (errors and the bottom-frame `End`/`Ret` return first). -/
def stepInstr (st : VMState) : Except RtErr StepOut :=
  if st.pc ≥ st.bc.length then .error .pcOutOfBounds
  else
    let b := st.bc.getD st.pc 0
    let st := { st with pc := st.pc + 1 }
    let r : Except RtErr StepOut :=
      match b with
      | 0x04 => (divStep st).map .next
      | 0x05 => (modStep st).map .next
      | 0x0a => (eqStep st).map .next
      | 0x10 => (constStep st).map .next
      | 0x16 => endStep st
      | 0x17 => endStep st
      | 0x18 => (popN st 1).map .next
      | 0x1a => (swapStep st).map .next
      | 0x1b => (elemStep st).map .next
      | 0x52 => beginStep st |>.map .next
      | 0x53 => beginStep st |>.map .next
      | 0x71 => (lwriteStep st).map .next
      | _ => .error (.unmodeled b)
    match r with
    | .error e => .error e
    | .ok (.done st2) => .ok (.done st2)
    | .ok (.next st2) =>
      match checkJmp st2 st2.pc with
      | .error e => .error e
      | .ok _ => .ok (.next st2)

/-- The interpreter loop, with explicit fuel (`none` = fuel ran out).
On success the produced output stream is returned. -/
def runFuel : Nat → VMState → Option (Except RtErr String)
  | 0, _ => none
  | fuel + 1, st =>
    match stepInstr st with
    | .error e => some (.error e)
    | .ok (.done st2) => some (.ok st2.out)
    | .ok (.next st2) => runFuel fuel st2

/-- The part of a loaded module that `Interpreter::run` consumes. -/
structure ModIn where
  globalCount : Nat
  bc : List Nat

/-- The state at the top of `Interpreter::run`: globals plus two dummy
`main` arguments, `pc = -1`, `args = 2`, `base = global_count + args`. -/
def initState (m : ModIn) : VMState where
  bc := m.bc
  stk := List.replicate (m.globalCount + 2) (.int 0)
  live := m.globalCount + 2
  pc := uint32Max
  base := m.globalCount + 2
  args := 2
  locals := 0
  frames := []
  isMain := true
  out := ""

/-- `Interpreter::run`: enter the bottom frame at `call_target = 0` (the
`enter_frame` label), check that the entry instruction is BEGIN/CBEGIN,
then iterate. -/
def interpRun (m : ModIn) (fuel : Nat) : Option (Except RtErr String) :=
  let st := initState m
  let st := { st with
    frames := [⟨0, st.pc, st.base, st.args, st.locals, 0, false⟩],
    pc := 0 }
  if st.bc.getD 0 0 = 0x52 ∨ st.bc.getD 0 0 = 0x53 then runFuel fuel st
  else some (.error .entryNotBegin)

/-! ## Verifier model (`verifier.cpp`)

The bytecode is a list of bytes; requests, the `verified_` side table, the
procedure map and the post-validation queue are carried in an explicit state.
The worklist loop gets explicit fuel (`none` = fuel ran out).  Errors carry
the byte offset and one constructor per `Error(...)` construction site. -/

namespace Verifier

/-- `constexpr uint32_t max_stack_height = 0x7fff'ffff;` (verifier.cpp) -/
def maxStackHeight : Nat := 0x7fffffff

/-- `constexpr uint32_t max_captures = 0x7fff'ffff;` (verifier.cpp) -/
def maxCaptures : Nat := 0x7fffffff

/-- A symbol-table entry (`bytecode::Sym`). -/
structure Sym where
  offset : Nat
  address : Nat
  name : Nat

/-- The parts of `bytecode::Module` that the verifier consumes. -/
structure VModule where
  globalCount : Nat
  symtab : List Sym
  strtab : List Nat
  bc : List Nat

/-- Verification errors: byte offset plus the identity of the
`Error(...)` construction site (the C++ stores a formatted message). -/
inductive VErrKind
  | symAddrOutOfBounds   -- "the symbol points to address ... beyond the size ..."
  | symBadName           -- "the symbol has an illegal name: ..."
  | symDuplicate         -- "the symbol named ... is defined multiple times"
  | strtabOutOfBounds    -- "a string table offset ... is out of bounds ..."
  | strtabNotTerminated  -- "a string at offset ... is not NUL-terminated"
  | noEofMarker          -- "no end-of-file marker found in the bytecode section"
  | cbeginMain           -- "the first procedure must not close over variables ..."
  | noMain               -- "no main procedure definition found"
  | illegalTopLevel (b : Nat) -- "encountered an illegal top-level bytecode byte ..."
  | truncatedImm         -- read_u32: "encountered the end of the file ..."
  | immTooLarge          -- read_u32: "the value ... is too large for the ..."
  | truncatedVarspec     -- read_varspec: "encountered the end of the file ..."
  | illegalVarKind (k : Nat) -- read_varspec: "unrecognized variable kind encoding"
  | bodyEof              -- "encountered the end of the file ... while verifying ..."
  | crossProc (a b : Nat)    -- "an instruction is part of multiple procedure definitions"
  | unbalanced (a b : Nat)   -- "detected unbalanced static stack heights"
  | stackUnderflow (need got : Nat) -- "not enough operands on the stack ..."
  | stackOverflowStatic  -- "exceeded the maximum static stack height ..."
  | globalOutOfBounds    -- "the global index ... is out of bounds ..."
  | localOutOfBounds     -- "the local index ... is out of bounds ..."
  | paramOutOfBounds     -- "the parameter index ... is out of bounds ..."
  | captureTooLarge      -- "the captured variable index ... is too large ..."
  | jumpOutOfBounds      -- "the jump target ... is out of bounds ..."
  | jumpToBegin          -- "the jump target ... refers to the beginning of a procedure ..."
  | jumpToEof            -- "the jump target ... refers to the end-of-file marker"
  | nestedBegin (proc : Nat)  -- "encountered a BEGIN instruction nested inside ..."
  | nestedCbegin (proc : Nat) -- "encountered a CBEGIN instruction nested inside ..."
  | eofInsideProc        -- "encountered an unexpected end-of-file marker inside ..."
  | closureOutOfBounds   -- post: "the closure instantiation refers to address ... out of bounds"
  | closureNotProc       -- post: "... not a procedure definition"
  | closureCaptures      -- post: "the closure instantiation captures ... needs at least ..."
  | callOutOfBounds      -- post: "the call refers to address ... out of bounds ..."
  | callNotProc          -- post: "the call refers to address ... not a procedure definition"
  | callToCbegin         -- post: "a closure cannot be called directly ..."
  | callArity            -- post: "the call has a wrong number of arguments ..."
deriving DecidableEq

/-- A verification error (`verifier::Error` with the message abstracted). -/
structure VErr where
  offset : Nat
  kind : VErrKind
deriving DecidableEq

/-- `Verifier::BytecodeInfo`. -/
inductive BKind
  | proc
  | body
  | eof
  | unknown
deriving DecidableEq

structure BytecodeInfo where
  kind : BKind := .unknown
  procAddr : Nat := 0
  stackHeight : Nat := 0
deriving DecidableEq

/-- `Verifier::ProcInfo`. -/
structure ProcInfo where
  params : Nat := 0
  locals : Nat := 0
  captures : Nat := 0
  stackSize : Nat := 0
  isClosure : Bool := false
deriving DecidableEq

/-- A worklist request (`Verifier::VerifyReq`). -/
inductive ReqKind
  | topLevel (main : Bool)
  | body (procAddr stackHeight : Nat)
deriving DecidableEq

structure VerifyReq where
  addr : Nat
  kind : ReqKind
deriving DecidableEq

/-- A deferred validation request (`Verifier::PostValidateReq`). -/
inductive PostReq
  | closure (addr targetAddr captures : Nat)
  | call (addr targetAddr args : Nat)
deriving DecidableEq

/-- The verifier's mutable state during `verify_bytecode`. -/
structure VSt where
  toVerify : List VerifyReq  -- head = back of the C++ vector-as-stack
  verified : List BytecodeInfo
  procs : List (Nat × ProcInfo)  -- unordered_map, in insertion order
  postReqs : List PostReq

/-- `procs_.find(k)` on the association-list model of the map. -/
def procsFind (ps : List (Nat × ProcInfo)) (k : Nat) : Option ProcInfo :=
  (ps.find? (fun p => p.1 = k)).map (·.2)

/-- `procs_.insert({k, v})`: like `unordered_map::insert`, keeps an existing
entry unchanged. -/
def procsInsert (ps : List (Nat × ProcInfo)) (k : Nat) (v : ProcInfo) :
    List (Nat × ProcInfo) :=
  if (procsFind ps k).isSome then ps else ps ++ [(k, v)]

/-- Writing through the `auto &proc = procs_[k]` reference: replace the entry
(or create it, as `operator[]` default-inserts). -/
def procsSet (ps : List (Nat × ProcInfo)) (k : Nat) (v : ProcInfo) :
    List (Nat × ProcInfo) :=
  if (procsFind ps k).isSome then
    ps.map (fun p => if p.1 = k then (k, v) else p)
  else ps ++ [(k, v)]

/-- `Verifier::read_u32`: bounds check (note the `>=`, requiring a byte after
the immediate), little-endian read, sign check; returns the value and the
advanced address. -/
def vReadU32 (bc : List Nat) (addr : Nat) (allowNeg : Bool) :
    Except VErr (Nat × Nat) :=
  if 4294967295 - addr ≤ 4 ∨ addr + 4 ≥ bc.length then .error ⟨addr, .truncatedImm⟩
  else
    let v := bc.getD addr 0 + bc.getD (addr + 1) 0 * 256 +
      bc.getD (addr + 2) 0 * 65536 + bc.getD (addr + 3) 0 * 16777216
    if ¬allowNeg ∧ v >>> 31 ≠ 0 then .error ⟨addr, .immTooLarge⟩
    else .ok (v, addr + 4)

/-- `Verifier::Varspec` kinds. -/
inductive VarKind
  | globalVar
  | localVar
  | paramVar
  | captureVar
deriving DecidableEq

structure Varspec where
  kind : VarKind
  addr : Nat
  idx : Nat

/-- `Verifier::read_varspec`: returns the varspec and the advanced address. -/
def vReadVarspec (bc : List Nat) (addr : Nat) (ignoreHi : Bool) :
    Except VErr (Varspec × Nat) :=
  if 4294967295 - addr ≤ 5 ∨ addr + 5 ≥ bc.length then
    .error ⟨addr, .truncatedVarspec⟩
  else
    let k0 := bc.getD addr 0
    let k := if ignoreHi then k0 &&& 0xf else k0
    let idx := bc.getD (addr + 1) 0 + bc.getD (addr + 2) 0 * 256 +
      bc.getD (addr + 3) 0 * 65536 + bc.getD (addr + 4) 0 * 16777216
    match k with
    | 0 => .ok (⟨.globalVar, addr, idx⟩, addr + 5)
    | 1 => .ok (⟨.localVar, addr, idx⟩, addr + 5)
    | 2 => .ok (⟨.paramVar, addr, idx⟩, addr + 5)
    | 3 => .ok (⟨.captureVar, addr, idx⟩, addr + 5)
    | k => .error ⟨addr, .illegalVarKind k⟩

/-- `compute_last_strtab_entry`: index of the last NUL, or 0 when there is
none. -/
def lastStrtabEntry (strtab : List Nat) : Nat :=
  (List.range strtab.length).foldl
    (fun acc i => if strtab.getD i 1 = 0 then i else acc) 0

/-- `Verifier::verify_strtab_entry`. -/
def verifyStrtabEntry (m : VModule) (offset pos : Nat) : Except VErr Unit :=
  if offset ≥ m.strtab.length then .error ⟨pos, .strtabOutOfBounds⟩
  else if offset > lastStrtabEntry m.strtab then .error ⟨pos, .strtabNotTerminated⟩
  else .ok ()

/-- `Module::strtab_entry_at`: the NUL-terminated string at an offset. -/
def strtabEntryAt (strtab : List Nat) (off : Nat) : List Nat :=
  (strtab.drop off).takeWhile (fun b => b ≠ 0)

/-- `Verifier::verify_symtab`: bounds and name checks plus duplicate
detection through `symtab_map`. -/
def verifySymtabGo (m : VModule) : List Sym → List (List Nat) → Except VErr Unit
  | [], _ => .ok ()
  | sym :: rest, seen =>
    if sym.address > m.bc.length then .error ⟨sym.offset, .symAddrOutOfBounds⟩
    else
      match verifyStrtabEntry m sym.name sym.offset with
      | .error e => .error ⟨e.offset, .symBadName⟩
      | .ok _ =>
        let s := strtabEntryAt m.strtab sym.name
        if s ∈ seen then .error ⟨sym.address, .symDuplicate⟩
        else verifySymtabGo m rest (s :: seen)

def verifySymtab (m : VModule) : Except VErr Unit :=
  verifySymtabGo m m.symtab []

/-- `Verifier::verify_top_level_instr`. -/
def verifyTopLevel (m : VModule) (st : VSt) (addr : Nat) (main : Bool) :
    Except VErr VSt :=
  if addr ≥ m.bc.length then .error ⟨addr, .noEofMarker⟩
  else
    let info := st.verified.getD addr {}
    match info.kind with
    | .proc | .eof => .ok st
    | .body | .unknown =>
      let opAddr := addr
      let b := m.bc.getD addr 0
      if b = 0x53 ∧ main then .error ⟨opAddr, .cbeginMain⟩
      else if b = 0x52 ∨ b = 0x53 then
        match vReadU32 m.bc (addr + 1) false with
        | .error e => .error e
        | .ok (params, a2) =>
          match vReadU32 m.bc a2 false with
          | .error e => .error e
          | .ok (locals, _) =>
            .ok { st with
              procs := procsInsert st.procs opAddr
                ⟨params, locals, 0, 0, b = 0x53⟩,
              verified := st.verified.set opAddr ⟨.proc, opAddr, 0⟩,
              toVerify := ⟨opAddr, .body opAddr 0⟩ :: st.toVerify }
      else if b = 0xff then
        if main then .error ⟨opAddr, .noMain⟩
        else .ok { st with verified := st.verified.set opAddr ⟨.eof, 0, 0⟩ }
      else .error ⟨opAddr, .illegalTopLevel b⟩

/-- The `check_stack` lambda: underflow and static-max checks, then the
height effect and the running `stack_size` maximum. -/
def checkStack (opAddr : Nat) (st : BytecodeInfo × ProcInfo) (pops pushes : Nat) :
    Except VErr (BytecodeInfo × ProcInfo) :=
  let (info, proc) := st
  if info.stackHeight < pops then
    .error ⟨opAddr, .stackUnderflow pops info.stackHeight⟩
  else if maxStackHeight - info.stackHeight < pushes then
    .error ⟨opAddr, .stackOverflowStatic⟩
  else
    let h := info.stackHeight + pushes - pops
    .ok ({ info with stackHeight := h },
         { proc with stackSize := max proc.stackSize h })

/-- The `check_varspec` lambda. -/
def checkVarspec (m : VModule) (proc : ProcInfo) (vs : Varspec) :
    Except VErr ProcInfo :=
  match vs.kind with
  | .globalVar =>
    if vs.idx ≥ m.globalCount then .error ⟨vs.addr, .globalOutOfBounds⟩ else .ok proc
  | .localVar =>
    if vs.idx ≥ proc.locals then .error ⟨vs.addr, .localOutOfBounds⟩ else .ok proc
  | .paramVar =>
    if vs.idx ≥ proc.params then .error ⟨vs.addr, .paramOutOfBounds⟩ else .ok proc
  | .captureVar =>
    if vs.idx ≥ maxCaptures then .error ⟨vs.addr, .captureTooLarge⟩
    else .ok { proc with captures := max proc.captures (vs.idx + 1) }

/-- The `check_jmp_target` lambda: on success it yields the body request
pushed onto the worklist (with the height at the time of the call). -/
def checkJmpTarget (m : VModule) (info : BytecodeInfo) (l lAddr : Nat) :
    Except VErr VerifyReq :=
  if l ≥ m.bc.length then .error ⟨lAddr, .jumpOutOfBounds⟩
  else
    let b := m.bc.getD l 0
    if b = 0x52 ∨ b = 0x53 then .error ⟨lAddr, .jumpToBegin⟩
    else if b = 0xff then .error ⟨lAddr, .jumpToEof⟩
    else .ok ⟨l, .body info.procAddr info.stackHeight⟩

/-- The `while (result)` loop in the `Closure` case: read varspecs until a
read or check fails and return that error (the loop has no other exit, so
the `Closure` body case always fails).  Each successful iteration advances
the address by 5 and stays within the bytecode, so `bc.length + 1` fuel is
never exhausted; the fuel-out fallback returns the same EOF error the next
read would produce. -/
def closureLoop (m : VModule) : Nat → Nat → ProcInfo → VErr
  | 0, addr, _ => ⟨addr, .truncatedVarspec⟩
  | fuel + 1, addr, proc =>
    match vReadVarspec m.bc addr false with
    | .error e => e
    | .ok (vs, addr2) =>
      match checkVarspec m proc vs with
      | .error e => e
      | .ok proc2 => closureLoop m fuel addr2 proc2

/-- The result of one body-instruction case: updated `info`/`proc`, the
address after the instruction, worklist requests pushed by
`check_jmp_target` (in push order), deferred requests, and whether the
fall-through path continues. -/
structure BodyStep where
  info : BytecodeInfo
  proc : ProcInfo
  tail : Nat
  targets : List VerifyReq := []
  posts : List PostReq := []
  cont : Bool := true

/-- The bytes `0x01 .. 0x0d` (`Add` .. `Or`). -/
def binopBytes : List Nat := [1, 2, 3, 4, 5, 6, 7, 8, 9, 10, 11, 12, 13]

/-- The bytes `0x60 .. 0x66` (`PattEqStr` .. `PattFun`). -/
def pattBytes : List Nat := [0x60, 0x61, 0x62, 0x63, 0x64, 0x65, 0x66]

/-- The dispatch of `verify_body_instr` over one opcode, given the already
updated `info`/`proc` pair.  `opAddr` is the instruction address and
`addr1 = opAddr + 1`.

Note on the load/store family: `verifier.cpp` switches on enumerators
`Instr::Ld`, `Instr::Lda` and `Instr::St` that `bytecode.hpp` does not
declare; they are modelled at the family base values `0x20`, `0x30` and
`0x40`.  Any byte carrying none of the listed cases falls out of the C++
`switch` (which has no `default`) with `r` still holding success, so the
default here is a no-op that continues to `opAddr + 1`. -/
def bodyDispatch (m : VModule) (ip : BytecodeInfo × ProcInfo)
    (b opAddr addr1 : Nat) : Except VErr BodyStep := do
  if b ∈ binopBytes then
    let ip ← checkStack opAddr ip 2 1
    return { info := ip.1, proc := ip.2, tail := addr1 }
  else if b = 0x10 then  -- Const
    let (_, a2) ← vReadU32 m.bc addr1 true
    let ip ← checkStack opAddr ip 0 1
    return { info := ip.1, proc := ip.2, tail := a2 }
  else if b = 0x11 then  -- String
    let (s, a2) ← vReadU32 m.bc addr1 false
    let _ ← verifyStrtabEntry m s addr1
    let ip ← checkStack opAddr ip 0 1
    return { info := ip.1, proc := ip.2, tail := a2 }
  else if b = 0x12 then  -- Sexp
    let (s, a2) ← vReadU32 m.bc addr1 false
    let (n, a3) ← vReadU32 m.bc a2 false
    let _ ← verifyStrtabEntry m s addr1
    let ip ← checkStack opAddr ip n 1
    return { info := ip.1, proc := ip.2, tail := a3 }
  else if b = 0x13 then  -- Sti
    let ip ← checkStack opAddr ip 2 1
    return { info := ip.1, proc := ip.2, tail := addr1 }
  else if b = 0x14 then  -- Sta
    let ip ← checkStack opAddr ip 3 1
    return { info := ip.1, proc := ip.2, tail := addr1 }
  else if b = 0x15 then  -- Jmp
    let (l, a2) ← vReadU32 m.bc addr1 false
    let req ← checkJmpTarget m ip.1 l addr1
    return { info := ip.1, proc := ip.2, tail := a2, targets := [req], cont := false }
  else if b = 0x16 ∨ b = 0x17 then  -- End / Ret
    let ip ← checkStack opAddr ip 1 1
    return { info := ip.1, proc := ip.2, tail := addr1, cont := false }
  else if b = 0x18 then  -- Drop
    let ip ← checkStack opAddr ip 1 0
    return { info := ip.1, proc := ip.2, tail := addr1 }
  else if b = 0x19 then  -- Dup
    let ip ← checkStack opAddr ip 1 2
    return { info := ip.1, proc := ip.2, tail := addr1 }
  else if b = 0x1a then  -- Swap
    let ip ← checkStack opAddr ip 2 2
    return { info := ip.1, proc := ip.2, tail := addr1 }
  else if b = 0x1b then  -- Elem
    let ip ← checkStack opAddr ip 2 1
    return { info := ip.1, proc := ip.2, tail := addr1 }
  else if b = 0x20 ∨ b = 0x30 then  -- Ld / Lda: re-read the opcode byte as the kind
    let (vs, a2) ← vReadVarspec m.bc opAddr true
    let proc2 ← checkVarspec m ip.2 vs
    let ip ← checkStack opAddr (ip.1, proc2) 0 1
    return { info := ip.1, proc := ip.2, tail := a2 }
  else if b = 0x40 then  -- St
    let (vs, a2) ← vReadVarspec m.bc opAddr true
    let proc2 ← checkVarspec m ip.2 vs
    let ip ← checkStack opAddr (ip.1, proc2) 1 1
    return { info := ip.1, proc := ip.2, tail := a2 }
  else if b = 0x50 ∨ b = 0x51 then  -- CjmpZ / CjmpNz
    let (l, a2) ← vReadU32 m.bc addr1 false
    let req ← checkJmpTarget m ip.1 l addr1
    let ip ← checkStack opAddr ip 1 0
    return { info := ip.1, proc := ip.2, tail := a2, targets := [req] }
  else if b = 0x52 then  -- Begin nested in a body
    .error ⟨opAddr, .nestedBegin ip.1.procAddr⟩
  else if b = 0x53 then  -- Cbegin nested in a body
    .error ⟨opAddr, .nestedCbegin ip.1.procAddr⟩
  else if b = 0x54 then  -- Closure: the varspec loop only stops on an error
    let (_, a2) ← vReadU32 m.bc addr1 false
    let (_, a3) ← vReadU32 m.bc a2 false
    .error (closureLoop m (m.bc.length + 1) a3 ip.2)
  else if b = 0x55 then  -- CallC
    let (n, a2) ← vReadU32 m.bc addr1 false
    let ip ← checkStack opAddr ip (n + 1) 1
    return { info := ip.1, proc := ip.2, tail := a2 }
  else if b = 0x56 then  -- Call
    let (l, a2) ← vReadU32 m.bc addr1 false
    let (n, a3) ← vReadU32 m.bc a2 false
    let ip ← checkStack opAddr ip n 1
    return { info := ip.1, proc := ip.2, tail := a3, posts := [.call opAddr l n] }
  else if b = 0x57 then  -- Tag
    let (s, a2) ← vReadU32 m.bc addr1 false
    let (_, a3) ← vReadU32 m.bc a2 false
    let _ ← verifyStrtabEntry m s addr1
    let ip ← checkStack opAddr ip 1 1
    return { info := ip.1, proc := ip.2, tail := a3 }
  else if b = 0x58 then  -- Array
    let (_, a2) ← vReadU32 m.bc addr1 false
    let ip ← checkStack opAddr ip 1 1
    return { info := ip.1, proc := ip.2, tail := a2 }
  else if b = 0x59 then  -- Fail
    let (_, a2) ← vReadU32 m.bc addr1 false
    let (_, a3) ← vReadU32 m.bc a2 false
    let ip ← checkStack opAddr ip 1 0
    return { info := ip.1, proc := ip.2, tail := a3, cont := false }
  else if b = 0x5a then  -- Line
    let (_, a2) ← vReadU32 m.bc addr1 false
    return { info := ip.1, proc := ip.2, tail := a2 }
  else if b ∈ pattBytes then
    let ip ← checkStack opAddr ip 1 1
    return { info := ip.1, proc := ip.2, tail := addr1 }
  else if b = 0x70 then  -- CallLread
    let ip ← checkStack opAddr ip 0 1
    return { info := ip.1, proc := ip.2, tail := addr1 }
  else if b = 0x71 ∨ b = 0x72 ∨ b = 0x73 then  -- CallLwrite / Llength / Lstring
    let ip ← checkStack opAddr ip 1 1
    return { info := ip.1, proc := ip.2, tail := addr1 }
  else if b = 0x74 then  -- CallBarray
    let (n, a2) ← vReadU32 m.bc addr1 false
    let ip ← checkStack opAddr ip n 1
    return { info := ip.1, proc := ip.2, tail := a2 }
  else if b = 0xff then  -- Eof
    .error ⟨opAddr, .eofInsideProc⟩
  else
    return { info := ip.1, proc := ip.2, tail := addr1 }

/-- `Verifier::verify_body_instr`. -/
def verifyBody (m : VModule) (st : VSt) (addr procAddr stackHeight : Nat) :
    Except VErr VSt :=
  if addr ≥ m.bc.length then .error ⟨addr, .bodyEof⟩
  else
    let info0 := st.verified.getD addr {}
    match info0.kind with
    | .body =>
      if info0.procAddr ≠ procAddr then
        .error ⟨addr, .crossProc info0.procAddr procAddr⟩
      else if info0.stackHeight ≠ stackHeight then
        .error ⟨addr, .unbalanced info0.stackHeight stackHeight⟩
      else .ok st
    | _ =>
      -- `auto &proc = procs_[info.proc_addr];` binds to the entry under the
      -- OLD proc address (default-inserting), then `info` is overwritten.
      let procKey := info0.procAddr
      let proc0 := (procsFind st.procs procKey).getD {}
      let info1 : BytecodeInfo := ⟨info0.kind, procAddr, stackHeight⟩
      let proc1 := { proc0 with stackSize := max proc0.stackSize stackHeight }
      let b := m.bc.getD addr 0
      match bodyDispatch m (info1, proc1) b addr (addr + 1) with
      | .error e => .error e
      | .ok step =>
        let finalReq : List VerifyReq :=
          if b = 0x16 then [⟨step.tail, .topLevel false⟩]
          else if step.cont then
            [⟨step.tail, .body step.info.procAddr step.info.stackHeight⟩]
          else []
        .ok { st with
          verified := st.verified.set addr step.info,
          procs := procsSet st.procs procKey step.proc,
          toVerify := finalReq ++ step.targets.reverse ++ st.toVerify,
          postReqs := st.postReqs ++ step.posts }

/-- The worklist loop of `verify_bytecode`, with fuel. -/
def verifyLoop (m : VModule) : Nat → VSt → Option (Except VErr VSt)
  | 0, _ => none
  | fuel + 1, st =>
    match st.toVerify with
    | [] => some (.ok st)
    | req :: rest =>
      let st1 := { st with toVerify := rest }
      let r := match req.kind with
        | .topLevel main => verifyTopLevel m st1 req.addr main
        | .body p h => verifyBody m st1 req.addr p h
      match r with
      | .error e => some (.error e)
      | .ok st2 => verifyLoop m fuel st2

/-- The post-validation pass over deferred `Call`/`Closure` requests. -/
def postValidate (m : VModule) (procs : List (Nat × ProcInfo)) :
    List PostReq → Except VErr Unit
  | [] => .ok ()
  | .closure addr target caps :: rest =>
    if target ≥ m.bc.length then .error ⟨addr, .closureOutOfBounds⟩
    else
      match procsFind procs target with
      | none => .error ⟨addr, .closureNotProc⟩
      | some p =>
        if caps < p.captures then .error ⟨addr, .closureCaptures⟩
        else postValidate m procs rest
  | .call addr target args :: rest =>
    if target ≥ m.bc.length then .error ⟨addr, .callOutOfBounds⟩
    else
      match procsFind procs target with
      | none => .error ⟨addr, .callNotProc⟩
      | some p =>
        if p.isClosure then .error ⟨addr, .callToCbegin⟩
        else if args ≠ p.params then .error ⟨addr, .callArity⟩
        else postValidate m procs rest

/-- `Verifier::verify_bytecode`: the worklist starting from
`(0, top-level, main)` followed by post-validation. -/
def verifyBytecode (m : VModule) (fuel : Nat) : Option (Except VErr Unit) :=
  let init : VSt :=
    { toVerify := [⟨0, .topLevel true⟩],
      verified := List.replicate m.bc.length {},
      procs := [],
      postReqs := [] }
  match verifyLoop m fuel init with
  | none => none
  | some (.error e) => some (.error e)
  | some (.ok st) => some (postValidate m st.procs st.postReqs)

/-- `verifier::verify`: symbol table first, then the bytecode. -/
def verify (m : VModule) (fuel : Nat) : Option (Except VErr Unit) :=
  match verifySymtab m with
  | .error e => some (.error e)
  | .ok _ => verifyBytecode m fuel

end Verifier

/-! ## Decoder model (`decode.hpp`, `Decoder::next`)

One call to `next(sink)` is modelled as the list of events passed to the
sink, together with the final cursor position. -/

namespace Decode

/-- `decode::Error::Kind`. -/
inductive DErrKind
  | eof
  | illegalVarKind
  | illegalOp
deriving DecidableEq

/-- `decode::ImmVarspec::VarKind`. -/
inductive DVarKind
  | globalVar
  | localVar
  | paramVar
  | captureVar
deriving DecidableEq

/-- The decoder events (`decode::Decoder::Result`). -/
inductive Event
  | instrStart (addr : Nat) (opcode : Nat)
  | instrEnd (addr : Nat) (start : Nat)
  | imm32 (addr : Nat) (imm : Nat)
  | immVarspec (addr : Nat) (kind : DVarKind) (idx : Nat)
  | error (addr : Nat) (kind : DErrKind)
deriving DecidableEq

def Event.isImm : Event → Bool
  | .imm32 _ _ => true
  | .immVarspec _ _ _ => true
  | _ => false

def Event.isErr : Event → Bool
  | .error _ _ => true
  | _ => false

def Event.isStart : Event → Bool
  | .instrStart _ _ => true
  | _ => false

def Event.isEnd : Event → Bool
  | .instrEnd _ _ => true
  | _ => false

/-- The little-endian 32-bit read of `util::from_u32_le`. -/
def le32 (bc : List Nat) (pos : Nat) : Nat :=
  bc.getD pos 0 + bc.getD (pos + 1) 0 * 256 +
    bc.getD (pos + 2) 0 * 65536 + bc.getD (pos + 3) 0 * 16777216

/-- Result of `Decoder::read_imm32`: the immediate (with its address) and
the new cursor, or an EOF error (which parks the cursor at the end). -/
inductive R32
  | ok (addr v newPos : Nat)
  | err (addr newPos : Nat)

/-- `Decoder::read_imm32` (note the strict `>` bound, unlike the verifier's
`read_u32`). -/
def readImm32 (bc : List Nat) (pos : Nat) : R32 :=
  if 4294967295 - pos ≤ 4 ∨ pos + 4 > bc.length then .err bc.length bc.length
  else .ok pos (le32 bc pos) (pos + 4)

/-- Result of `Decoder::read_imm_varspec`. -/
inductive RVs
  | ok (addr : Nat) (kind : DVarKind) (idx newPos : Nat)
  | errEof (addr newPos : Nat)
  | errKind (addr newPos : Nat)

/-- `Decoder::read_imm_varspec`: on an unrecognized kind the cursor has
consumed only the kind byte. -/
def readImmVarspec (bc : List Nat) (pos : Nat) (ignoreHi : Bool) : RVs :=
  if 4294967295 - pos ≤ 5 ∨ pos + 5 > bc.length then .errEof bc.length bc.length
  else
    let k0 := bc.getD pos 0
    let k := if ignoreHi then k0 &&& 0xf else k0
    let idx := le32 bc (pos + 1)
    match k with
    | 0 => .ok pos .globalVar idx (pos + 5)
    | 1 => .ok pos .localVar idx (pos + 5)
    | 2 => .ok pos .paramVar idx (pos + 5)
    | 3 => .ok pos .captureVar idx (pos + 5)
    | _ => .errKind pos (pos + 1)

/-- Opcodes with no immediates (including the `Eof` marker). -/
def noImmBytes : List Nat :=
  [0x01, 0x02, 0x03, 0x04, 0x05, 0x06, 0x07, 0x08, 0x09, 0x0a, 0x0b, 0x0c, 0x0d,
   0x13, 0x14, 0x16, 0x17, 0x18, 0x19, 0x1a, 0x1b,
   0x60, 0x61, 0x62, 0x63, 0x64, 0x65, 0x66,
   0x70, 0x71, 0x72, 0x73, 0xff]

/-- Opcodes with a single `Imm32`. -/
def oneImmBytes : List Nat := [0x10, 0x11, 0x15, 0x50, 0x51, 0x55, 0x58, 0x5a, 0x74]

/-- Opcodes with two `Imm32`s. -/
def twoImmBytes : List Nat := [0x12, 0x52, 0x53, 0x56, 0x57, 0x59]

/-- The load/store family (`Ld*`/`Lda*`/`St*`): the kind is re-read from the
opcode byte with the high nibble masked off. -/
def ldStBytes : List Nat :=
  [0x20, 0x21, 0x22, 0x23, 0x30, 0x31, 0x32, 0x33, 0x40, 0x41, 0x42, 0x43]

/-- The varspec loop of the `Closure` case: up to `n` varspecs, stopping at
the first failed read. -/
def closureVarspecs (bc : List Nat) : Nat → Nat → List Event × List Event × Nat
  | 0, pos => ([], [], pos)
  | i + 1, pos =>
    match readImmVarspec bc pos false with
    | .ok a k idx p =>
      let (l, errs, p2) := closureVarspecs bc i p
      (.immVarspec a k idx :: l, errs, p2)
    | .errEof a p => ([], [.error a .eof], p)
    | .errKind a p => ([], [.error a .illegalVarKind], p)

/-- The per-opcode operand dispatch of `Decoder::next`: the immediate events,
then at most one error event, and the final cursor. -/
def decodeOperands (bc : List Nat) (b opStart pos : Nat) :
    List Event × List Event × Nat :=
  if b ∈ noImmBytes then ([], [], pos)
  else if b ∈ oneImmBytes then
    match readImm32 bc pos with
    | .ok a v p => ([.imm32 a v], [], p)
    | .err a p => ([], [.error a .eof], p)
  else if b ∈ twoImmBytes then
    match readImm32 bc pos with
    | .err a p => ([], [.error a .eof], p)
    | .ok a1 v1 p1 =>
      match readImm32 bc p1 with
      | .err a p => ([.imm32 a1 v1], [.error a .eof], p)
      | .ok a2 v2 p2 => ([.imm32 a1 v1, .imm32 a2 v2], [], p2)
  else if b ∈ ldStBytes then
    -- `--pos_`: the kind is taken from the opcode byte itself
    match readImmVarspec bc (pos - 1) true with
    | .ok a k idx p => ([.immVarspec a k idx], [], p)
    | .errEof a p => ([], [.error a .eof], p)
    | .errKind a p => ([], [.error a .illegalVarKind], p)
  else if b = 0x54 then
    match readImm32 bc pos with
    | .err a p => ([], [.error a .eof], p)
    | .ok a1 v1 p1 =>
      match readImm32 bc p1 with
      | .err a p => ([.imm32 a1 v1], [.error a .eof], p)
      | .ok a2 n p2 =>
        let (l, errs, p3) := closureVarspecs bc n p2
        (.imm32 a1 v1 :: .imm32 a2 n :: l, errs, p3)
  else ([], [.error opStart .illegalOp], pos)

/-- `Decoder::next`: at or past the end of the buffer only an EOF error is
emitted (no `InstrStart`, no `InstrEnd`); otherwise the event sequence is
`InstrStart`, immediates, at most one error, `InstrEnd`. -/
def next (bc : List Nat) (pos : Nat) : List Event × Nat :=
  if pos ≥ bc.length then ([.error pos .eof], pos)
  else
    let opStart := pos
    let b := bc.getD pos 0
    let (imms, errs, p2) := decodeOperands bc b opStart (pos + 1)
    (.instrStart opStart b :: (imms ++ errs ++ [.instrEnd p2 opStart]), p2)

end Decode

/-! ## Idiom miner output ordering (`idiom.cpp`, `find_idioms`)

The claim under scrutiny concerns the final sort, so the enumeration result
(the contents of the `occurrences` hash map) is quantified over as an
arbitrary list.  `std::ranges::sort(v, cmp)` guarantees a permutation in
which every consecutive pair `(a, b)` satisfies `¬cmp(b, a)`; `mergeSort`
with `le a b := ¬cmp(b, a)` realizes one compliant permutation. -/

namespace Idiom

/-- `idiom::Idiom`: the instruction bytes of the span and the count. -/
structure Idiom where
  instrs : List Nat
  occurrences : Nat

/-- `std::ranges::lexicographical_compare` on byte sequences. -/
def lexLt : List Nat → List Nat → Bool
  | [], [] => false
  | [], _ :: _ => true
  | _ :: _, [] => false
  | x :: xs, y :: ys => if x < y then true else if y < x then false else lexLt xs ys

/-- The comparator lambda of `find_idioms`:
`occur_ord > 0 || (occur_ord == 0 && lexicographical_compare(lhs, rhs))`. -/
def cmpIdiom (lhs rhs : Idiom) : Bool :=
  (decide (lhs.occurrences > rhs.occurrences)) ||
    (lhs.occurrences == rhs.occurrences && lexLt lhs.instrs rhs.instrs)

/-- The sorting step of `find_idioms` (`std::ranges::sort` with `cmpIdiom`). -/
def sortIdioms (l : List Idiom) : List Idiom :=
  l.mergeSort (fun a b => !cmpIdiom b a)

/-- The ordering the spec claims of consecutive output entries: strictly
greater count, or equal count and instruction bytes lexicographically no
greater. -/
def IdiomOrd (a b : Idiom) : Prop :=
  a.occurrences > b.occurrences ∨
    (a.occurrences = b.occurrences ∧ lexLt b.instrs a.instrs = false)

end Idiom

/-! ## Loader model (`loader.cpp`)

The input stream is the list of bytes it will yield.  `load_bytes` consults
`errno` through `get_last_error()`; the C++ standard library need not touch
`errno` on a successful read, a behaviour the sources do not control, so the
model takes the continue path and lets the byte-level checks decide.  Under
either `errno` behaviour every remaining path still ends in an error. -/

namespace Loader

inductive LErrKind
  | truncated        -- make_eof_error: "encountered an unexpected end of file ..."
  | negativeField    -- load_u32: "{} must not be negative (got {})"
  | noEofMarker      -- "no end-of-file marker found in the bytecode section"
  | eofMarkerNotFinal -- "the end-of-file marker ... must be the final byte in the file"
deriving DecidableEq

/-- `Loader::Error`: byte offset plus the construction site. -/
structure LErr where
  offset : Nat
  kind : LErrKind
deriving DecidableEq

/-- The fields of `bytecode::Module` that `Loader::load` produces. -/
structure LModule where
  globalCount : Nat
  symtab : List (Nat × Nat)
  strtab : List Nat
  bytecode : List Nat

/-- `Loader::load_u32`: read four little-endian bytes, reject a negative
`int32` reading; returns the value, the remaining stream and the new
position. -/
def loadU32 (s : List Nat) (pos : Nat) : Except LErr (Nat × List Nat × Nat) :=
  if s.length < 4 then .error ⟨pos + s.length, .truncated⟩
  else
    let v := s.getD 0 0 + s.getD 1 0 * 256 + s.getD 2 0 * 65536 + s.getD 3 0 * 16777216
    if v >>> 31 ≠ 0 then .error ⟨pos, .negativeField⟩
    else .ok (v, s.drop 4, pos + 4)

/-- The symbol-table loop of `Loader::load_header`. -/
def loadSymtab : Nat → List Nat → Nat →
    Except LErr (List (Nat × Nat) × List Nat × Nat)
  | 0, s, pos => .ok ([], s, pos)
  | n + 1, s, pos => do
    let (addr, s, pos) ← loadU32 s pos
    let (name, s, pos) ← loadU32 s pos
    let (rest, s, pos) ← loadSymtab n s pos
    return ((addr, name) :: rest, s, pos)

/-- `Loader::load_header`: sizes, symbol table, string table. -/
def loadHeader (s : List Nat) :
    Except LErr (Nat × List (Nat × Nat) × List Nat × List Nat × Nat) := do
  let (strtabSize, s, pos) ← loadU32 s 0
  let (globalCount, s, pos) ← loadU32 s pos
  let (symtabEntries, s, pos) ← loadU32 s pos
  let (symtab, s, pos) ← loadSymtab symtabEntries s pos
  if s.length < strtabSize then .error ⟨pos + s.length, .truncated⟩
  else return (globalCount, symtab, s.take strtabSize, s.drop strtabSize, pos + strtabSize)

/-- The end-of-file-marker validation of `Loader::load_bytecode` (after the
loop has read the whole remaining stream into `mod_.bytecode`): the index of
the first `0xFF` is compared against the *full* length of the bytecode. -/
def loadBytecodeCheck (pos : Nat) (bytecode : List Nat) : Except LErr Unit :=
  match bytecode.findIdx? (fun b => b = 0xff) with
  | none => .error ⟨pos + bytecode.length, .noEofMarker⟩
  | some idx =>
    if idx ≠ bytecode.length then .error ⟨pos + idx, .eofMarkerNotFinal⟩
    else .ok ()

/-- `Loader::load`: header, bytecode (the rest of the stream), then the
end-of-file-marker checks. -/
def load (s : List Nat) : Except LErr LModule :=
  match loadHeader s with
  | .error e => .error e
  | .ok (globalCount, symtab, strtab, rest, _pos) =>
    match loadBytecodeCheck _pos rest with
    | .error e => .error e
    | .ok _ => .ok ⟨globalCount, symtab, strtab, rest⟩

end Loader

/-! ## Concrete example inputs used by the claim theorems -/

/-- Bytecode of `Begin 2 0; Const 10; Const 0; Div; Drop; Const 0; End`
followed by the EOF marker. -/
def divProgBytes : List Nat :=
  [0x52, 2, 0, 0, 0, 0, 0, 0, 0,
   0x10, 10, 0, 0, 0,
   0x10, 0, 0, 0, 0,
   0x04,
   0x18,
   0x10, 0, 0, 0, 0,
   0x16,
   0xff]

/-- Bytecode of `Begin 0 0` followed by the EOF marker. -/
def begin00Bytes : List Nat := [0x52, 0, 0, 0, 0, 0, 0, 0, 0, 0xff]

/-- Bytecode of `Begin 2 0` followed by the EOF marker. -/
def begin20Bytes : List Nat := [0x52, 2, 0, 0, 0, 0, 0, 0, 0, 0xff]

/-- A module whose bytecode is only the EOF sentinel. -/
def emptyBcModule : Verifier.VModule := ⟨0, [], [], [0xff]⟩

/-- A module whose bytecode is `Begin 0 0; Eof`. -/
def begin00Module : Verifier.VModule := ⟨0, [], [], begin00Bytes⟩

/-- A module whose bytecode is `Begin 2 0; Eof`. -/
def begin20Module : Verifier.VModule := ⟨0, [], [], begin20Bytes⟩

/-- An interpreter state whose two top operands are heap pointers of unequal
types (an array below a string). -/
def eqObjState : VMState :=
  { bc := [], stk := [.obj .array [], .obj .string []], live := 2, pc := 0,
    base := 0, args := 0, locals := 0, frames := [], isMain := false, out := "" }

/-- An interpreter state whose two top operands are the small integers
1 (below) and 2 (top). -/
def swapIntState : VMState :=
  { bc := [], stk := [.int 1, .int 2], live := 2, pc := 0,
    base := 0, args := 0, locals := 0, frames := [], isMain := false, out := "" }

/-- An interpreter state whose top operand is the small integer -5. -/
def lwriteState : VMState :=
  { bc := [], stk := [.int (-5)], live := 1, pc := 0,
    base := 0, args := 0, locals := 0, frames := [], isMain := false, out := "" }

end Friar

namespace Friar

/-! Helper lemmas about the bit-level operations used by `Value.from_int`. -/

theorem fdiv_one_add_two_mul (x : Int) : Int.fdiv (1 + 2 * x) 2 = x := by
  rw [Int.fdiv_eq_ediv _ (by norm_num)]
  rw [Int.add_mul_ediv_left 1 x (by norm_num : (2 : Int) ≠ 0)]
  norm_num

theorem two_mul_or_one (x : Nat) : (2 * x) ||| 1 = 2 * x + 1 := by
  have h := @Nat.mul_add_lt_is_or 1 1 (by norm_num) x
  simpa [Nat.pow_one] using h.symm

theorem or_two_pow_of_lt (a k : Nat) (h : a < 2 ^ k) : a ||| 2 ^ k = a + 2 ^ k := by
  have h2 := @Nat.mul_add_lt_is_or k a h 1
  rw [Nat.mul_one] at h2
  rw [Nat.or_comm]
  omega

theorem unboxed_contents_shift (w : Nat) (hw : 2 ≤ w) :
    Value.unboxed_contents w >>> 1 = 2 ^ (w - 2) - 1 := by
  have h0 : 2 ^ w = 2 * 2 ^ (w - 1) := by
    rw [← Nat.pow_succ']; congr 1; omega
  have h1 : 2 ^ (w - 1) = 2 * 2 ^ (w - 2) := by
    rw [← Nat.pow_succ']; congr 1; omega
  have h2 : Value.unboxed_contents w = 2 ^ (w - 1) - 1 := by
    unfold Value.unboxed_contents
    rw [Nat.shiftRight_succ, Nat.shiftRight_zero]
    omega
  rw [h2, Nat.shiftRight_succ, Nat.shiftRight_zero]
  omega

/-- Round-trip of the small-integer constructor: for every signed `x` in
`[-2^(w-2), 2^(w-2) - 1]`, `get_aint (from_int x) = x`. -/
theorem from_int_get_aint (w : Nat) (hw : 2 ≤ w) (x : Int)
    (hlo : -((2 : Int) ^ (w - 2)) ≤ x) (hhi : x ≤ (2 : Int) ^ (w - 2) - 1) :
    Value.get_aint w (Value.from_int w x) = x := by
  have hQH : (2 : Nat) ^ (w - 1) = 2 * 2 ^ (w - 2) := by
    rw [← Nat.pow_succ']; congr 1; omega
  have hHW : (2 : Nat) ^ w = 2 * 2 ^ (w - 1) := by
    rw [← Nat.pow_succ']; congr 1; omega
  have hQi : (((2 : Nat) ^ (w - 2) : Nat) : Int) = (2 : Int) ^ (w - 2) := by push_cast; ring
  have hHi : (((2 : Nat) ^ (w - 1) : Nat) : Int) = (2 : Int) ^ (w - 1) := by push_cast; ring
  have hWi : (((2 : Nat) ^ w : Nat) : Int) = (2 : Int) ^ w := by push_cast; ring
  have hQpos : (0 : Nat) < 2 ^ (w - 2) := Nat.pos_pow_of_pos _ (by norm_num)
  unfold Value.from_int
  rw [unboxed_contents_shift w hw, Nat.and_pow_two_sub_one_eq_mod]
  rcases le_or_lt 0 x with hx | hx
  · -- non-negative case: no sign bit is set
    have hxlt : x < ((2 : Nat) ^ w : Nat) := by
      have : (2 : Int) ^ (w - 2) ≤ (2 : Int) ^ w := pow_le_pow_right₀ (by norm_num) (by omega)
      omega
    have hword : toWord w x = x.toNat := by
      unfold toWord
      rw [Int.emod_eq_of_lt hx (by exact_mod_cast hxlt)]
    have hxQ : x.toNat < 2 ^ (w - 2) := by omega
    rw [hword, Nat.mod_eq_of_lt hxQ]
    have hneg : ¬x < 0 := by omega
    simp only [hneg, if_false]
    rw [Nat.shiftLeft_eq, Nat.pow_one, Nat.mul_comm, two_mul_or_one]
    unfold Value.get_aint toSigned
    have hrange : 2 * x.toNat + 1 < 2 ^ (w - 1) := by omega
    rw [if_pos hrange]
    have hcast : ((2 * x.toNat + 1 : Nat) : Int) = 1 + 2 * x := by push_cast; omega
    rw [hcast, fdiv_one_add_two_mul]
  · -- negative case: the sign bit is restored in the MSB
    have hWpos : (0 : Int) < (2 : Int) ^ w := by positivity
    have hxgt : -((2 : Int) ^ w) < x := by
      have : (2 : Int) ^ (w - 2) ≤ (2 : Int) ^ w := pow_le_pow_right₀ (by norm_num) (by omega)
      omega
    have hword : (toWord w x : Int) = x + (2 : Int) ^ w := by
      unfold toWord
      have h2 : (x + (2 : Int) ^ w) % ((2 : Int) ^ w) = x % ((2 : Int) ^ w) := by
        have h0 := Int.add_mul_emod_self_left x ((2 : Int) ^ w) 1
        rw [mul_one] at h0
        exact h0
      have h3 : (x + (2 : Int) ^ w) % ((2 : Int) ^ w) = x + (2 : Int) ^ w :=
        Int.emod_eq_of_lt (by omega) (by omega)
      have h1 : x % ((2 : Int) ^ w) = x + (2 : Int) ^ w := by omega
      rw [h1]
      omega
    -- the masked magnitude is x + 2^(w-2)
    set y : Nat := (x + (2 : Int) ^ (w - 2)).toNat with hy
    have hyi : (y : Int) = x + (2 : Int) ^ (w - 2) := by
      rw [hy]
      omega
    have hylt : y < 2 ^ (w - 2) := by omega
    have hsum : toWord w x = y + 2 ^ (w - 2) * 3 := by
      have : (toWord w x : Int) = (y : Int) + ((2 ^ (w - 2) * 3 : Nat) : Int) := by
        push_cast
        rw [hword, hyi]
        have : ((2 : Nat) ^ (w - 2) : Int) * 3 = (2 : Int) ^ (w - 2) * 3 := by push_cast; ring
        omega
      omega
    have hmask : toWord w x % 2 ^ (w - 2) = y := by
      rw [hsum, Nat.add_mul_mod_self_left, Nat.mod_eq_of_lt hylt]
    rw [hmask]
    simp only [hx, if_true]
    rw [Nat.shiftLeft_eq, Nat.shiftLeft_eq, Nat.pow_one, Nat.one_mul, Nat.mul_comm,
      or_two_pow_of_lt (2 * y) (w - 1) (by omega)]
    have heven : 2 * y + 2 ^ (w - 1) = 2 * (y + 2 ^ (w - 2)) := by omega
    rw [heven, two_mul_or_one]
    unfold Value.get_aint toSigned
    have hge : ¬(2 * (y + 2 ^ (w - 2)) + 1 < 2 ^ (w - 1)) := by omega
    rw [if_neg hge]
    have hcast : ((2 * (y + 2 ^ (w - 2)) + 1 : Nat) : Int) - (2 : Int) ^ w = 1 + 2 * x := by
      push_cast
      rw [hyi] at *
      omega
    rw [hcast, fdiv_one_add_two_mul]

/-! ## C6: small-integer constructor round-trip -/

/-- C6.  For every signed integer `x` in `[-2^(W-2), 2^(W-2)-1]`, where `W`
is the machine word width in bits (any width at least 2), the small-integer
constructor round-trips: `Value::from_int(x).get_aint() == x`. -/
theorem C6_from_int_roundtrip (w : Nat) (hw : 2 ≤ w) (x : Int)
    (hlo : -((2 : Int) ^ (w - 2)) ≤ x) (hhi : x ≤ (2 : Int) ^ (w - 2) - 1) :
    Value.get_aint w (Value.from_int w x) = x :=
  from_int_get_aint w hw x hlo hhi

theorem C6_from_int_roundtrip_witness :
    2 ≤ 64 ∧ -((2 : Int) ^ 62) ≤ -(2 : Int) ^ 62 ∧
      -((2 : Int) ^ 62) ≤ (2 : Int) ^ 62 - 1 ∧
      Value.get_aint 64 (Value.from_int 64 (-(2 : Int) ^ 62)) = -(2 : Int) ^ 62 :=
  ⟨by norm_num, by norm_num, by norm_num,
    C6_from_int_roundtrip 64 (by norm_num) (-(2 : Int) ^ 62) (by norm_num) (by norm_num)⟩

/-! ## C8: idiom output ordering -/

theorem lexLt_asymm :
    ∀ a b : List Nat, Idiom.lexLt a b = true → Idiom.lexLt b a = true → False := by
  intro a
  induction a with
  | nil =>
    intro b h1 h2
    cases b with
    | nil => exact absurd h1 (by simp [Idiom.lexLt])
    | cons y ys => exact absurd h2 (by simp [Idiom.lexLt])
  | cons x xs ih =>
    intro b h1 h2
    cases b with
    | nil => exact absurd h1 (by simp [Idiom.lexLt])
    | cons y ys =>
      simp only [Idiom.lexLt] at h1 h2
      by_cases hxy : x < y
      · rw [if_neg (by omega), if_pos hxy] at h2
        cases h2
      · by_cases hyx : y < x
        · rw [if_neg hxy, if_pos hyx] at h1
          cases h1
        · rw [if_neg hxy, if_neg hyx] at h1
          rw [if_neg hyx, if_neg hxy] at h2
          exact ih ys h1 h2

theorem lexLt_trans :
    ∀ a b c : List Nat, Idiom.lexLt a b = true → Idiom.lexLt b c = true →
      Idiom.lexLt a c = true := by
  intro a
  induction a with
  | nil =>
    intro b c h1 h2
    cases b with
    | nil => exact absurd h1 (by simp [Idiom.lexLt])
    | cons y ys =>
      cases c with
      | nil => exact absurd h2 (by simp [Idiom.lexLt])
      | cons z zs => simp [Idiom.lexLt]
  | cons x xs ih =>
    intro b c h1 h2
    cases b with
    | nil => exact absurd h1 (by simp [Idiom.lexLt])
    | cons y ys =>
      cases c with
      | nil => exact absurd h2 (by simp [Idiom.lexLt])
      | cons z zs =>
        simp only [Idiom.lexLt] at h1 h2 ⊢
        by_cases hxy : x < y
        · by_cases hyz : y < z
          · rw [if_pos (by omega)]
          · by_cases hzy : z < y
            · rw [if_neg hyz, if_pos hzy] at h2
              cases h2
            · rw [if_pos (by omega)]
        · by_cases hyx : y < x
          · rw [if_neg hxy, if_pos hyx] at h1
            cases h1
          · have hxy2 : x = y := by omega
            subst hxy2
            rw [if_neg hxy, if_neg hyx] at h1
            by_cases hxz : x < z
            · rw [if_pos hxz]
            · by_cases hzx : z < x
              · rw [if_neg hxz, if_pos hzx] at h2
                cases h2
              · rw [if_neg hxz, if_neg hzx] at h2 ⊢
                exact ih ys zs h1 h2

theorem lexLt_eq_of_not :
    ∀ a b : List Nat, Idiom.lexLt a b = false → Idiom.lexLt b a = false → a = b := by
  intro a
  induction a with
  | nil =>
    intro b h1 _
    cases b with
    | nil => rfl
    | cons y ys => exact absurd h1 (by simp [Idiom.lexLt])
  | cons x xs ih =>
    intro b h1 h2
    cases b with
    | nil => exact absurd h2 (by simp [Idiom.lexLt])
    | cons y ys =>
      simp only [Idiom.lexLt] at h1 h2
      by_cases hxy : x < y
      · rw [if_pos hxy] at h1
        cases h1
      · by_cases hyx : y < x
        · rw [if_pos hyx] at h2
          cases h2
        · have hxy2 : x = y := by omega
          subst hxy2
          rw [if_neg hxy, if_neg hyx] at h1
          rw [if_neg hyx, if_neg hxy] at h2
          rw [ih ys h1 h2]

/-- `cmpIdiom` characterized as a proposition. -/
theorem cmpIdiom_eq_true_iff (a b : Idiom.Idiom) :
    Idiom.cmpIdiom a b = true ↔
      (a.occurrences > b.occurrences ∨
        (a.occurrences = b.occurrences ∧ Idiom.lexLt a.instrs b.instrs = true)) := by
  unfold Idiom.cmpIdiom
  simp

/-- The `mergeSort` comparator of `sortIdioms` unfolded into `IdiomOrd`. -/
theorem sortLe_iff (a b : Idiom.Idiom) :
    (!Idiom.cmpIdiom b a) = true ↔ Idiom.IdiomOrd a b := by
  rw [Bool.not_eq_true']
  constructor
  · intro h
    have h2 : ¬(Idiom.cmpIdiom b a = true) := by
      rw [h]
      exact Bool.false_ne_true
    rw [cmpIdiom_eq_true_iff] at h2
    push_neg at h2
    unfold Idiom.IdiomOrd
    by_cases he : a.occurrences = b.occurrences
    · right
      refine ⟨he, ?_⟩
      have h3 := h2.2 he.symm
      exact Bool.not_eq_true _ ▸ h3
    · left
      have := h2.1
      omega
  · intro h
    have h2 : ¬(Idiom.cmpIdiom b a = true) := by
      rw [cmpIdiom_eq_true_iff]
      unfold Idiom.IdiomOrd at h
      rintro (hgt | ⟨heq, hlt⟩)
      · rcases h with h | ⟨h, _⟩ <;> omega
      · rcases h with h | ⟨h, hfl⟩
        · omega
        · rw [hfl] at hlt
          cases hlt
    exact Bool.not_eq_true _ ▸ h2

theorem sortLe_total (a b : Idiom.Idiom) :
    ((!Idiom.cmpIdiom b a) || (!Idiom.cmpIdiom a b)) = true := by
  rw [Bool.or_eq_true, sortLe_iff, sortLe_iff]
  unfold Idiom.IdiomOrd
  rcases Nat.lt_trichotomy a.occurrences b.occurrences with h | h | h
  · right; left; omega
  · by_cases hl : Idiom.lexLt b.instrs a.instrs = true
    · right; right
      refine ⟨h.symm, ?_⟩
      by_cases hl2 : Idiom.lexLt a.instrs b.instrs = true
      · exact absurd (lexLt_asymm _ _ hl2 hl) (fun hf => hf)
      · exact Bool.not_eq_true _ ▸ hl2
    · left; right
      exact ⟨h, Bool.not_eq_true _ ▸ hl⟩
  · left; left; omega

theorem sortLe_trans (a b c : Idiom.Idiom) :
    (!Idiom.cmpIdiom b a) = true → (!Idiom.cmpIdiom c b) = true →
      (!Idiom.cmpIdiom c a) = true := by
  rw [sortLe_iff, sortLe_iff, sortLe_iff]
  unfold Idiom.IdiomOrd
  rintro (h1 | ⟨h1, h1l⟩) (h2 | ⟨h2, h2l⟩)
  · left; omega
  · left; omega
  · left; omega
  · right
    refine ⟨by omega, ?_⟩
    by_cases hl : Idiom.lexLt c.instrs a.instrs = true
    · by_cases hcb : Idiom.lexLt b.instrs c.instrs = true
      · -- b < c together with c < a gives b < a, contradicting h1l
        have hba := lexLt_trans _ _ _ hcb hl
        rw [hba] at h1l
        cases h1l
      · -- neither b < c nor c < b, so b = c; then c < a contradicts h1l
        have hbc_eq := lexLt_eq_of_not _ _ (Bool.not_eq_true _ ▸ hcb) h2l
        rw [← hbc_eq] at hl
        rw [hl] at h1l
        cases h1l
    · exact Bool.not_eq_true _ ▸ hl

/-- C8.  The idiom miner's output is sorted descending by occurrence count
with ties broken by lexicographic order of the instruction bytes: every two
consecutive entries of `sortIdioms` satisfy `IdiomOrd`, and the output is a
permutation of the enumerated idioms. -/
theorem C8_idioms_sorted (l : List Idiom.Idiom) :
    List.Chain' Idiom.IdiomOrd (Idiom.sortIdioms l) ∧
      (Idiom.sortIdioms l).Perm l := by
  constructor
  · have hp := @List.sorted_mergeSort _ (fun a b => !Idiom.cmpIdiom b a)
      (fun a b c => sortLe_trans a b c) (fun a b => sortLe_total a b) l
    have hp2 : List.Pairwise Idiom.IdiomOrd (Idiom.sortIdioms l) := by
      refine hp.imp ?_
      intro a b h
      exact (sortLe_iff a b).mp h
    exact hp2.chain'
  · exact List.mergeSort_perm l _

/-! ## C9: the loader never produces a module -/

theorem findIdx?_some_lt {p : Nat → Bool} :
    ∀ (l : List Nat) (i j : Nat), List.findIdx? p l i = some j → j < i + l.length := by
  intro l
  induction l with
  | nil => intro i j h; cases h
  | cons x xs ih =>
    intro i j h
    rw [List.findIdx?_cons] at h
    by_cases hx : p x = true
    · rw [if_pos hx] at h
      cases h
      simp only [List.length_cons]
      omega
    · rw [if_neg hx] at h
      have := ih (i + 1) j h
      simp only [List.length_cons]
      omega

theorem findIdx?_some_mem {p : Nat → Bool} :
    ∀ (l : List Nat) (i j : Nat), List.findIdx? p l i = some j →
      ∃ x ∈ l, p x = true := by
  intro l
  induction l with
  | nil => intro i j h; cases h
  | cons y ys ih =>
    intro i j h
    rw [List.findIdx?_cons] at h
    by_cases hy : p y = true
    · exact ⟨y, List.mem_cons_self y ys, hy⟩
    · rw [if_neg hy] at h
      rcases ih (i + 1) j h with ⟨x, hx, hp⟩
      exact ⟨x, List.mem_cons_of_mem y hx, hp⟩

theorem findIdx?_none_not_mem {p : Nat → Bool} :
    ∀ (l : List Nat) (i : Nat), List.findIdx? p l i = none → ∀ x ∈ l, p x = false := by
  intro l
  induction l with
  | nil => intro i h x hx; cases hx
  | cons y ys ih =>
    intro i h x hx
    rw [List.findIdx?_cons] at h
    by_cases hy : p y = true
    · rw [if_pos hy] at h
      cases h
    · rw [if_neg hy] at h
      rcases List.mem_cons.mp hx with heq | hx2
      · subst heq
        exact Bool.not_eq_true _ ▸ hy
      · exact ih (i + 1) h x hx2

/-- C9.  `Loader::load` returns an error for every input stream and never a
module: the index of the first `0xFF` byte of the bytecode section is
required to equal the full bytecode length (instead of length minus one),
so a bytecode containing `0xFF` hits the "EOF marker must be the final
byte" branch, and one containing no `0xFF` hits the missing-marker error. -/
theorem C9_loader_always_fails :
    (∀ (s : List Nat) (m : Loader.LModule), Loader.load s ≠ .ok m) ∧
    (∀ (pos : Nat) (bc : List Nat), 255 ∈ bc →
      ∃ i, i < bc.length ∧
        Loader.loadBytecodeCheck pos bc = .error ⟨pos + i, .eofMarkerNotFinal⟩) ∧
    (∀ (pos : Nat) (bc : List Nat), ¬255 ∈ bc →
      Loader.loadBytecodeCheck pos bc = .error ⟨pos + bc.length, .noEofMarker⟩) := by
  have hsome : ∀ (l : List Nat) (i : Nat), 255 ∈ l →
      ∃ j, List.findIdx? (fun b => decide (b = 0xff)) l i = some j := by
    intro l
    induction l with
    | nil => intro i h; cases h
    | cons y ys ih =>
      intro i h
      rw [List.findIdx?_cons]
      by_cases hy : (decide (y = 0xff)) = true
      · exact ⟨i, by rw [if_pos hy]⟩
      · rcases List.mem_cons.mp h with heq | h2
        · exact absurd (by rw [← heq]; simp) hy
        · rcases ih (i + 1) h2 with ⟨j, hj⟩
          exact ⟨j, by rw [if_neg hy, hj]⟩
  have hcheck : ∀ (pos : Nat) (bc : List Nat) (u : Unit),
      Loader.loadBytecodeCheck pos bc ≠ .ok u := by
    intro pos bc u h
    rcases hf : List.findIdx? (fun b => decide (b = 0xff)) bc 0 with _ | j
    · simp only [Loader.loadBytecodeCheck, hf] at h
      cases h
    · have hj := findIdx?_some_lt bc 0 j hf
      have hne : j ≠ bc.length := by omega
      simp only [Loader.loadBytecodeCheck, hf, hne, if_true, ne_eq,
        not_false_eq_true] at h
      cases h
  refine ⟨?_, ?_, ?_⟩
  · intro s m h
    rcases hh : Loader.loadHeader s with e | ⟨gc, sy, str, rest, pos⟩
    · simp only [Loader.load, hh] at h
      cases h
    · rcases hb : Loader.loadBytecodeCheck pos rest with e2 | u
      · simp only [Loader.load, hh, hb] at h
        cases h
      · exact hcheck pos rest u hb
  · intro pos bc hmem
    rcases hsome bc 0 hmem with ⟨j, hj⟩
    have hlt := findIdx?_some_lt bc 0 j hj
    have hne : j ≠ bc.length := by omega
    refine ⟨j, by omega, ?_⟩
    simp only [Loader.loadBytecodeCheck, hj, hne, ne_eq, not_false_eq_true, if_true]
  · intro pos bc hmem
    rcases hf : List.findIdx? (fun b => decide (b = 0xff)) bc 0 with _ | j
    · simp only [Loader.loadBytecodeCheck, hf]
    · exfalso
      rcases findIdx?_some_mem bc 0 j hf with ⟨x, hx, hp⟩
      have hx255 : x = 255 := by simpa using hp
      subst hx255
      exact hmem hx

theorem C9_loader_always_fails_witness :
    ((255 ∈ [255]) ∧ ∃ i, i < 1 ∧
      Loader.loadBytecodeCheck 0 [255] = .error ⟨0 + i, .eofMarkerNotFinal⟩) ∧
    ((¬255 ∈ ([] : List Nat)) ∧
      Loader.loadBytecodeCheck 7 [] = .error ⟨7 + 0, .noEofMarker⟩) ∧
    Loader.load [] ≠ .ok ⟨0, [], [], []⟩ :=
  ⟨⟨by decide, C9_loader_always_fails.2.1 0 [255] (by decide)⟩,
   ⟨by decide, C9_loader_always_fails.2.2 7 [] (by decide)⟩,
   C9_loader_always_fails.1 [] ⟨0, [], [], []⟩⟩

end Friar

namespace Friar

/-! Reduction lemmas for the interpreter stack primitives. -/

theorem topNth_eq (st : VMState) (n : Nat) (h : ¬(n > 0 ∧ n ≥ st.live)) :
    topNth st n = .ok (st.stk.getD (st.live - 1 - n) (.int 0)) := by
  unfold topNth
  rw [if_neg h]

theorem popN_eq (st : VMState) (n : Nat) (h : ¬(n > st.live)) :
    popN st n = .ok { st with live := st.live - n } := by
  unfold popN
  rw [if_neg h]

theorem push_eq (st : VMState) (v : RtValue) (hmax : ¬(st.live + 1 > maxStackSize))
    (hlen : ¬(st.live + 1 > st.stk.length)) :
    push st v = .ok { st with stk := st.stk.set st.live v, live := st.live + 1 } := by
  unfold push
  rw [if_neg hmax, if_neg hlen]

/-! ## C10: `CallLwrite` semantics -/

/-- C10.  When `CallLwrite` executes with a small integer `a` on top of the
stack, it pops it, appends the decimal rendering of `a` and a newline to the
output, and pushes the small integer 0 (the default-constructed `Value()`,
i.e. `BOX(0)`); the net stack height is unchanged (the top slot is simply
overwritten). -/
theorem C10_lwrite_semantics (st : VMState) (h1 : 1 ≤ st.live)
    (hlen : st.live ≤ st.stk.length) (hmax : st.live ≤ maxStackSize) (a : Int)
    (ha : st.stk.getD (st.live - 1) (.int 0) = .int a) :
    lwriteStep st = .ok { st with stk := st.stk.set (st.live - 1) (.int 0),
                                  out := st.out ++ toString a ++ "\n" } := by
  have e0 : topNth st 0 = .ok (.int a) := by
    rw [topNth_eq st 0 (by omega)]
    rw [show st.live - 1 - 0 = st.live - 1 from rfl, ha]
  simp only [lwriteStep, e0, popN_eq st 1 (by omega)]
  rw [push_eq _ _ (by simp; omega) (by simp; omega)]
  have hlive : st.live - 1 + 1 = st.live := by omega
  simp [hlive]

theorem C10_lwrite_semantics_witness :
    1 ≤ lwriteState.live ∧ lwriteState.live ≤ lwriteState.stk.length ∧
    lwriteState.live ≤ maxStackSize ∧
    lwriteState.stk.getD (lwriteState.live - 1) (.int 0) = .int (-5) ∧
    lwriteStep lwriteState =
      .ok { lwriteState with
              stk := lwriteState.stk.set (lwriteState.live - 1) (.int 0),
              out := lwriteState.out ++ toString (-5 : Int) ++ "\n" } :=
  ⟨by decide, by decide, by decide, rfl,
    C10_lwrite_semantics lwriteState (by decide) (by decide) (by decide) (-5) rfl⟩

end Friar

namespace Friar

/-! ## C3: `Eq` semantics -/

/-- C3, counterexample.  An interpreter state with two operands on the
stack, both heap pointers of unequal types (an array and a string): the
claim predicts `Eq` pushes `false`, but executing `Eq` produces the
"cannot compare" runtime error. -/
theorem C3_eq_boxed_counterexample :
    2 ≤ eqObjState.live ∧
    eqObjState.stk.getD 0 (.int 0) = .obj .array [] ∧
    eqObjState.stk.getD 1 (.int 0) = .obj .string [] ∧
    LamaType.array ≠ LamaType.string ∧
    eqStep eqObjState = .error .cannotCompare :=
  ⟨by decide, rfl, rfl, by decide, rfl⟩

/-- C3, amended.  With at least two operands on the stack, `Eq` pushes the
boolean of signed equality when both operands are small integers, pushes
`false` when exactly one operand is a small integer, and produces the
"cannot compare" runtime error whenever both operands are heap pointers
(regardless of their types). -/
theorem C3_eq_semantics (st : VMState) (h2 : 2 ≤ st.live)
    (hlen : st.live ≤ st.stk.length) (hmax : st.live ≤ maxStackSize) :
    (∀ a b : Int,
      st.stk.getD (st.live - 2) (.int 0) = .int a →
      st.stk.getD (st.live - 1) (.int 0) = .int b →
      eqStep st = .ok { st with stk := st.stk.set (st.live - 2) (fromBool (a == b)),
                                live := st.live - 1 }) ∧
    (∀ (a : Int) (t : LamaType) (fs : List RtValue),
      st.stk.getD (st.live - 2) (.int 0) = .int a →
      st.stk.getD (st.live - 1) (.int 0) = .obj t fs →
      eqStep st = .ok { st with stk := st.stk.set (st.live - 2) (fromBool false),
                                live := st.live - 1 }) ∧
    (∀ (t : LamaType) (fs : List RtValue) (b : Int),
      st.stk.getD (st.live - 2) (.int 0) = .obj t fs →
      st.stk.getD (st.live - 1) (.int 0) = .int b →
      eqStep st = .ok { st with stk := st.stk.set (st.live - 2) (fromBool false),
                                live := st.live - 1 }) ∧
    (∀ (t1 : LamaType) (fs1 : List RtValue) (t2 : LamaType) (fs2 : List RtValue),
      st.stk.getD (st.live - 2) (.int 0) = .obj t1 fs1 →
      st.stk.getD (st.live - 1) (.int 0) = .obj t2 fs2 →
      eqStep st = .error .cannotCompare) := by
  have hidx : st.live - 1 - 1 = st.live - 2 := by omega
  have e1 : topNth st 1 = .ok (st.stk.getD (st.live - 2) (.int 0)) := by
    rw [topNth_eq st 1 (by omega), hidx]
  have e0 : topNth st 0 = .ok (st.stk.getD (st.live - 1) (.int 0)) := by
    rw [topNth_eq st 0 (by omega)]
    norm_num
  have hpop : popN st 2 = .ok { st with live := st.live - 2 } := popN_eq st 2 (by omega)
  have hlive : st.live - 2 + 1 = st.live - 1 := by omega
  refine ⟨?_, ?_, ?_, ?_⟩
  · intro a b ha hb
    rw [ha] at e1
    rw [hb] at e0
    simp only [eqStep, e1, e0, hpop]
    rw [push_eq _ _ (by simp; omega) (by simp; omega)]
    simp [hlive]
  · intro a t fs ha hb
    rw [ha] at e1
    rw [hb] at e0
    simp only [eqStep, e1, e0, hpop]
    rw [push_eq _ _ (by simp; omega) (by simp; omega)]
    simp [hlive]
  · intro t fs b ha hb
    rw [ha] at e1
    rw [hb] at e0
    simp only [eqStep, e1, e0, hpop]
    rw [push_eq _ _ (by simp; omega) (by simp; omega)]
    simp [hlive]
  · intro t1 fs1 t2 fs2 ha hb
    rw [ha] at e1
    rw [hb] at e0
    simp only [eqStep, e1, e0]

theorem C3_eq_semantics_witness :
    2 ≤ swapIntState.live ∧ swapIntState.live ≤ swapIntState.stk.length ∧
    swapIntState.live ≤ maxStackSize ∧
    swapIntState.stk.getD 0 (.int 0) = .int 1 ∧
    swapIntState.stk.getD 1 (.int 0) = .int 2 ∧
    eqStep swapIntState =
      .ok { swapIntState with
              stk := swapIntState.stk.set 0 (fromBool ((1 : Int) == 2)),
              live := 1 } :=
  ⟨by decide, by decide, by decide, rfl, rfl,
    (C3_eq_semantics swapIntState (by decide) (by decide) (by decide)).1 1 2 rfl rfl⟩

/-! ## C4: `Swap` falls through into `Elem` -/

/-- C4.  The `case Instr::Swap` block lacks a `break` and falls through into
`case Instr::Elem`: executing `Swap` on a state whose two top operands are
the small integers 1 and 2 does not leave the exchanged operands and
proceed; it fails with the "cannot index" runtime error that `Elem` raises
on the (un-indexable) integer it finds after the exchange. -/
theorem C4_swap_missing_break :
    2 ≤ swapIntState.live ∧
    swapIntState.stk = [.int 1, .int 2] ∧
    swapStep swapIntState = .error .cannotIndex :=
  ⟨by decide, rfl, rfl⟩

end Friar

namespace Friar

/-! ## C7: division / modulo by zero -/

/-- `wrapAint` is the identity on the representable small-integer range. -/
theorem wrapAint_eq_self (x : Int) (hlo : -((2 : Int) ^ 62) ≤ x)
    (hhi : x ≤ (2 : Int) ^ 62 - 1) : wrapAint x = x := by
  unfold wrapAint aintBits
  exact from_int_get_aint 64 (by norm_num) x (by norm_num; omega) (by norm_num; omega)

/-- C7.  With two small-integer operands on the stack, `Div` (resp. `Mod`)
produces the division-by-zero runtime error iff the top operand (the
divisor) is 0; otherwise it pushes the boxed truncated signed quotient
(resp. remainder), exactly when representable.  The end-to-end program
`Begin 2 0; Const 10; Const 0; Div; Drop; Const 0; End` terminates with the
division-by-zero error. -/
theorem C7_div_mod_by_zero (st : VMState) (h2 : 2 ≤ st.live)
    (hlen : st.live ≤ st.stk.length) (hmax : st.live ≤ maxStackSize) (l r : Int)
    (hl : st.stk.getD (st.live - 2) (.int 0) = .int l)
    (hr : st.stk.getD (st.live - 1) (.int 0) = .int r) :
    ((divStep st = .error .divisionByZero) ↔ r = 0) ∧
    ((modStep st = .error .divisionByZeroRem) ↔ r = 0) ∧
    (r ≠ 0 → divStep st =
      .ok { st with stk := st.stk.set (st.live - 2) (.int (wrapAint (Int.tdiv l r))),
                    live := st.live - 1 }) ∧
    (r ≠ 0 → modStep st =
      .ok { st with stk := st.stk.set (st.live - 2) (.int (wrapAint (Int.tmod l r))),
                    live := st.live - 1 }) ∧
    (∀ x : Int, -((2 : Int) ^ 62) ≤ x → x ≤ (2 : Int) ^ 62 - 1 → wrapAint x = x) ∧
    interpRun ⟨0, divProgBytes⟩ 20 = some (.error .divisionByZero) := by
  have hidx : st.live - 1 - 1 = st.live - 2 := by omega
  have e1 : topNth st 1 = .ok (.int l) := by
    rw [topNth_eq st 1 (by omega), hidx, hl]
  have e0 : topNth st 0 = .ok (.int r) := by
    have e0a : topNth st 0 = .ok (st.stk.getD (st.live - 1) (.int 0)) := by
      rw [topNth_eq st 0 (by omega)]
      norm_num
    rw [e0a, hr]
  have hpop : popN st 2 = .ok { st with live := st.live - 2 } := popN_eq st 2 (by omega)
  have hlive : st.live - 2 + 1 = st.live - 1 := by omega
  have hdiv : divStep st =
      if r = 0 then .error .divisionByZero
      else .ok { st with stk := st.stk.set (st.live - 2) (.int (wrapAint (Int.tdiv l r))),
                         live := st.live - 1 } := by
    simp only [divStep, e1, e0, hpop]
    by_cases h0 : r = 0
    · simp [h0]
    · rw [if_neg h0, if_neg h0, push_eq _ _ (by simp; omega) (by simp; omega)]
      simp [hlive]
  have hmod : modStep st =
      if r = 0 then .error .divisionByZeroRem
      else .ok { st with stk := st.stk.set (st.live - 2) (.int (wrapAint (Int.tmod l r))),
                         live := st.live - 1 } := by
    simp only [modStep, e1, e0, hpop]
    by_cases h0 : r = 0
    · simp [h0]
    · rw [if_neg h0, if_neg h0, push_eq _ _ (by simp; omega) (by simp; omega)]
      simp [hlive]
  refine ⟨?_, ?_, ?_, ?_, wrapAint_eq_self, by rfl⟩
  · rw [hdiv]
    by_cases h0 : r = 0
    · simp [h0]
    · simp [h0]
  · rw [hmod]
    by_cases h0 : r = 0
    · simp [h0]
    · simp [h0]
  · intro h0
    rw [hdiv, if_neg h0]
  · intro h0
    rw [hmod, if_neg h0]

theorem C7_div_mod_by_zero_witness :
    2 ≤ swapIntState.live ∧ swapIntState.live ≤ swapIntState.stk.length ∧
    swapIntState.live ≤ maxStackSize ∧
    swapIntState.stk.getD 0 (.int 0) = .int 1 ∧
    swapIntState.stk.getD 1 (.int 0) = .int 2 ∧
    ¬((2 : Int) = 0) ∧
    divStep swapIntState =
      .ok { swapIntState with
              stk := swapIntState.stk.set 0 (.int (wrapAint (Int.tdiv 1 2))),
              live := 1 } :=
  ⟨by decide, by decide, by decide, rfl, rfl, by decide,
    (C7_div_mod_by_zero swapIntState (by decide) (by decide) (by decide) 1 2
        rfl rfl).2.2.1 (by decide)⟩

end Friar

namespace Friar

/-! ## C5: decoder event shape -/

theorem closureVarspecs_shape (bc : List Nat) :
    ∀ (n pos : Nat),
      (∀ e ∈ (Decode.closureVarspecs bc n pos).1, e.isImm = true) ∧
      (Decode.closureVarspecs bc n pos).2.1.length ≤ 1 ∧
      (∀ e ∈ (Decode.closureVarspecs bc n pos).2.1, e.isErr = true) := by
  intro n
  induction n with
  | zero =>
    intro pos
    simp [Decode.closureVarspecs]
  | succ i ih =>
    intro pos
    cases h : Decode.readImmVarspec bc pos false with
    | ok a k idx p =>
      obtain ⟨h1, h2, h3⟩ := ih p
      rcases hcv : Decode.closureVarspecs bc i p with ⟨l, errs, p2⟩
      rw [hcv] at h1 h2 h3
      simp only at h1 h2 h3
      simp only [Decode.closureVarspecs, h, hcv]
      refine ⟨?_, h2, h3⟩
      intro e he
      rcases List.mem_cons.mp he with rfl | he2
      · rfl
      · exact h1 e he2
    | errEof a p =>
      simp [Decode.closureVarspecs, h, Decode.Event.isErr]
    | errKind a p =>
      simp [Decode.closureVarspecs, h, Decode.Event.isErr]

theorem decodeOperands_shape (bc : List Nat) (b opStart pos : Nat) :
    (∀ e ∈ (Decode.decodeOperands bc b opStart pos).1, e.isImm = true) ∧
    (Decode.decodeOperands bc b opStart pos).2.1.length ≤ 1 ∧
    (∀ e ∈ (Decode.decodeOperands bc b opStart pos).2.1, e.isErr = true) := by
  unfold Decode.decodeOperands
  split_ifs with h1 h2 h3 h4 h5
  · simp
  · cases h : Decode.readImm32 bc pos with
    | ok a v p => simp [h, Decode.Event.isImm]
    | err a p => simp [h, Decode.Event.isErr]
  · cases hA : Decode.readImm32 bc pos with
    | err a p => simp [hA, Decode.Event.isErr]
    | ok a1 v1 p1 =>
      cases hB : Decode.readImm32 bc p1 with
      | err a p => simp [hA, hB, Decode.Event.isImm, Decode.Event.isErr]
      | ok a2 v2 p2 => simp [hA, hB, Decode.Event.isImm]
  · cases h : Decode.readImmVarspec bc (pos - 1) true with
    | ok a k idx p => simp [h, Decode.Event.isImm]
    | errEof a p => simp [h, Decode.Event.isErr]
    | errKind a p => simp [h, Decode.Event.isErr]
  · cases hA : Decode.readImm32 bc pos with
    | err a p => simp [hA, Decode.Event.isErr]
    | ok a1 v1 p1 =>
      cases hB : Decode.readImm32 bc p1 with
      | err a p => simp [hA, hB, Decode.Event.isImm, Decode.Event.isErr]
      | ok a2 n p2 =>
        obtain ⟨hc1, hc2, hc3⟩ := closureVarspecs_shape bc n p2
        rcases hcv : Decode.closureVarspecs bc n p2 with ⟨l, errs, p3⟩
        rw [hcv] at hc1 hc2 hc3
        simp only at hc1 hc2 hc3
        simp only [hA, hB, hcv]
        refine ⟨?_, hc2, hc3⟩
        intro e he
        rcases List.mem_cons.mp he with rfl | he2
        · rfl
        · rcases List.mem_cons.mp he2 with rfl | he3
          · rfl
          · exact hc1 e he3
  · simp [Decode.Event.isErr]

/-- C5, counterexample.  At or past the end of the buffer (here: empty
bytecode, cursor at 0), one call to `next` emits a single EOF `Error` event
and nothing else: no `InstrStart` and no `InstrEnd`, contradicting the
claim's "exactly one InstrStart ... exactly one InstrEnd" for such cursor
positions. -/
theorem C5_decoder_eof_counterexample :
    Decode.next [] 0 = ([.error 0 .eof], 0) ∧
    (Decode.next [] 0).1.countP Decode.Event.isStart = 0 ∧
    (Decode.next [] 0).1.countP Decode.Event.isEnd = 0 ∧
    (Decode.next [] 0).1.countP Decode.Event.isErr = 1 :=
  ⟨rfl, by decide, by decide, by decide⟩

/-- C5, amended.  For a cursor position strictly inside the buffer,
`next(sink)` emits exactly one `InstrStart`, then zero or more
`Imm32`/`ImmVarspec` events, then zero or one `Error`, terminated by exactly
one `InstrEnd`; for a position at or past the end it emits exactly one EOF
`Error` event and nothing else. -/
theorem C5_decoder_event_shape (bc : List Nat) (pos : Nat) :
    (pos < bc.length →
      ∃ imms errs p2,
        Decode.next bc pos =
          (.instrStart pos (bc.getD pos 0) :: (imms ++ errs ++ [.instrEnd p2 pos]), p2) ∧
        (∀ e ∈ imms, e.isImm = true) ∧ errs.length ≤ 1 ∧
        (∀ e ∈ errs, e.isErr = true)) ∧
    (bc.length ≤ pos → Decode.next bc pos = ([.error pos .eof], pos)) := by
  constructor
  · intro h
    obtain ⟨h1, h2, h3⟩ := decodeOperands_shape bc (bc.getD pos 0) pos (pos + 1)
    rcases hde : Decode.decodeOperands bc (bc.getD pos 0) pos (pos + 1) with ⟨imms, errs, p2⟩
    rw [hde] at h1 h2 h3
    simp only at h1 h2 h3
    refine ⟨imms, errs, p2, ?_, h1, h2, h3⟩
    unfold Decode.next
    rw [if_neg (by omega)]
    simp only [hde]
  · intro h
    unfold Decode.next
    rw [if_pos (by omega)]

theorem C5_decoder_event_shape_witness :
    ((0 : Nat) < 1 ∧
      ∃ imms errs p2,
        Decode.next [0xff] 0 =
          (.instrStart 0 (([0xff] : List Nat).getD 0 0) ::
            (imms ++ errs ++ [.instrEnd p2 0]), p2) ∧
        (∀ e ∈ imms, e.isImm = true) ∧ errs.length ≤ 1 ∧
        (∀ e ∈ errs, e.isErr = true)) ∧
    (([0xff] : List Nat).length ≤ 3 ∧ Decode.next [0xff] 3 = ([.error 3 .eof], 3)) :=
  ⟨⟨by decide, (C5_decoder_event_shape [0xff] 0).1 (by decide)⟩,
   ⟨by decide, (C5_decoder_event_shape [0xff] 3).2 (by decide)⟩⟩

end Friar

namespace Friar

/-! ## C1 / C2: verifier behaviour -/

/-- From the initial worklist, the first request is `(0, top-level, main)`;
whatever the module, it either errors immediately or registers the procedure
at 0 and enqueues its body at the `Begin` opcode itself, which the body pass
rejects as a nested `BEGIN`.  Hence the worklist loop never drains. -/
theorem verifyLoop_init_not_ok (m : Verifier.VModule) (fuel : Nat)
    (stR : Verifier.VSt) :
    Verifier.verifyLoop m fuel
      ⟨[⟨0, .topLevel true⟩], List.replicate m.bc.length {}, [], []⟩ ≠
      some (.ok stR) := by
  intro h
  cases fuel with
  | zero => exact Option.noConfusion h
  | succ f =>
    simp only [Verifier.verifyLoop] at h
    rcases hbc : m.bc with _ | ⟨b0, bs⟩
    · simp [Verifier.verifyTopLevel, hbc] at h
    · have hlen : ¬(0 ≥ m.bc.length) := by rw [hbc]; simp
      have hb : m.bc.getD 0 0 = b0 := by rw [hbc]; rfl
      have hinfo : (List.replicate m.bc.length ({} : Verifier.BytecodeInfo)).getD 0 {} =
          ({} : Verifier.BytecodeInfo) := by
        rw [hbc]
        simp [List.replicate_succ]
      simp only [Verifier.verifyTopLevel, hlen, if_false, hinfo, hb] at h
      by_cases h53 : b0 = 0x53
      · simp [h53] at h
      · by_cases h52 : b0 = 0x52
        · subst h52
          simp only [h53, false_and, if_false, true_or, if_true] at h
          rcases hr1 : Verifier.vReadU32 m.bc (0 + 1) false with e | ⟨params, a2⟩
          · simp only [hr1] at h
            simp at h
          · simp only [hr1] at h
            rcases hr2 : Verifier.vReadU32 m.bc a2 false with e | ⟨locals, a3⟩
            · simp only [hr2] at h
              simp at h
            · simp only [hr2] at h
              -- the loop now runs the body request at address 0
              cases f with
              | zero => exact Option.noConfusion h
              | succ f2 =>
                simp only [Verifier.verifyLoop] at h
                have hlen2 : ¬((0 : Nat) ≥ m.bc.length) := hlen
                have hset : ((List.replicate m.bc.length
                    ({} : Verifier.BytecodeInfo)).set 0
                      ⟨.proc, 0, 0⟩).getD 0 {} =
                    (⟨.proc, 0, 0⟩ : Verifier.BytecodeInfo) := by
                  rw [hbc]
                  simp [List.replicate_succ]
                simp only [Verifier.verifyBody, hlen2, if_false, hset, hb] at h
                simp [Verifier.bodyDispatch, Verifier.binopBytes,
                  Verifier.pattBytes] at h
        · by_cases hff : b0 = 0xff
          · simp [h53, h52, hff] at h
          · simp [h53, h52, hff] at h

/-- `verifier::verify` never returns success, for any module and any fuel:
the body worklist starts at each procedure's own `Begin` opcode and
immediately reports it as nested. -/
theorem verify_never_ok (m : Verifier.VModule) (fuel : Nat) :
    Verifier.verify m fuel ≠ some (.ok ()) := by
  intro hok
  unfold Verifier.verify at hok
  rcases hs : Verifier.verifySymtab m with e | u
  · simp [hs] at hok
  · simp only [hs] at hok
    unfold Verifier.verifyBytecode at hok
    rcases hl : Verifier.verifyLoop m fuel
        ⟨[⟨0, .topLevel true⟩], List.replicate m.bc.length {}, [], []⟩ with
      _ | r
    · simp [hl] at hok
    · rcases r with e2 | st
      · simp [hl] at hok
      · exact verifyLoop_init_not_ok m fuel st hl

end Friar

namespace Friar

/-- C1.  For every module whose bytecode is only the EOF sentinel `0xFF` at
offset 0, verification never succeeds, and — whenever the symbol-table pass
itself passes — it fails with the "no main procedure definition found" error
at offset 0, for every sufficient fuel. -/
theorem C1_empty_bytecode_no_main (m : Verifier.VModule) (hbc : m.bc = [0xff]) :
    (∀ fuel : Nat, Verifier.verify m fuel ≠ some (.ok ())) ∧
    (Verifier.verifySymtab m = .ok () → ∀ fuel : Nat,
      Verifier.verify m (fuel + 1) = some (.error ⟨0, .noMain⟩)) := by
  constructor
  · intro fuel
    exact verify_never_ok m fuel
  · intro hs fuel
    unfold Verifier.verify
    simp only [hs]
    unfold Verifier.verifyBytecode
    simp [Verifier.verifyLoop, Verifier.verifyTopLevel, hbc, List.replicate_succ]

theorem C1_empty_bytecode_no_main_witness :
    emptyBcModule.bc = [0xff] ∧
    Verifier.verifySymtab emptyBcModule = .ok () ∧
    Verifier.verify emptyBcModule 1 = some (.error ⟨0, .noMain⟩) ∧
    Verifier.verify emptyBcModule 5 ≠ some (.ok ()) :=
  ⟨rfl, rfl,
    (C1_empty_bytecode_no_main emptyBcModule rfl).2 rfl 0,
    (C1_empty_bytecode_no_main emptyBcModule rfl).1 5⟩

/-- C2, counterexample.  A module whose first instruction is `Begin 0 0` is
rejected, but with the nested-`BEGIN` error at offset 0 — not with a "main
must have 2 parameters" error (no such check exists in the verifier; the
identically-shaped conforming module `Begin 2 0` draws the very same
error). -/
theorem C2_main_params_counterexample :
    Verifier.verify begin00Module 10 = some (.error ⟨0, .nestedBegin 0⟩) ∧
    Verifier.verify begin20Module 10 = some (.error ⟨0, .nestedBegin 0⟩) :=
  ⟨rfl, rfl⟩

/-- C2, amended.  Verification fails for every module (so, in particular,
whenever the instruction at offset 0 is not a `Begin` with two declared
parameters); a module starting with `Begin 0 0` is rejected with the
nested-`BEGIN` error at offset 0; and the "main must have 2 parameters"
check lives in the interpreter: running that module produces the
`mainParams` runtime error with got = 0. -/
theorem C2_main_params_check :
    (∀ (m : Verifier.VModule) (fuel : Nat),
      Verifier.verify m fuel ≠ some (.ok ())) ∧
    Verifier.verify begin00Module 2 = some (.error ⟨0, .nestedBegin 0⟩) ∧
    interpRun ⟨0, begin00Bytes⟩ 10 = some (.error (.mainParams 0)) :=
  ⟨fun m fuel => verify_never_ok m fuel, rfl, rfl⟩

theorem C2_main_params_check_witness :
    Verifier.verify begin00Module 3 ≠ some (.ok ()) :=
  C2_main_params_check.1 begin00Module 3

end Friar
